import Mathlib

/-!
Verification development for the Pulse job scheduler
(`src/services/job-scheduler/models.py` and `scheduler.py`).

The Python code is shallowly embedded: Python `int` is `Int`/`Nat`, Python
`float` fields (`memory_gb` and its partition counters) are modelled as `ℚ`
— the exact-arithmetic idealization of the IEEE-754 binary64 values the
source actually carries (faithful for the pure order comparisons of
validation and admission; float *accumulation* rounds, and that rounding is
modelled separately by the `F64` definitions below) — `datetime` values are
modelled as an integer number of seconds, dictionaries are association
lists, and the per-state `set` indexes are insertion-ordered duplicate-free
lists.  The mutable `JobScheduler`
object becomes a state record threaded through the operations.  Python's
built-in `hash` is a per-run salted function; operations that use it take the
run's hash function `h : String → Int` as a parameter.  The stochastic
completion rolls of `_check_running_jobs` (spec §4.3 requires an injectable
randomness source) are a parameter `rolls` giving the two `random.random()`
draws for a job in a cycle.
-/

namespace Pulse

/-- Embeds `JobState` from `models.py`. -/
inductive JobState where
  | PENDING
  | PENDING_DEPENDENCY
  | RUNNING
  | SUSPENDED
  | COMPLETING
  | COMPLETED
  | FAILED
  | TIMEOUT
  | CANCELLED
  | NODE_FAIL
  | PREEMPTED
deriving DecidableEq

/-- Embeds `PartitionState` from `models.py`. -/
inductive PartitionState where
  | UP
  | DOWN
  | DRAIN
  | INACTIVE
deriving DecidableEq

/-- Embeds `Priority` from `models.py`. -/
inductive Priority where
  | low
  | normal
  | high
  | urgent
deriving DecidableEq

/-- Embeds the `PRIORITY_VALUES` mapping from `models.py`. -/
def PRIORITY_VALUES : Priority → Int
  | .low => 1
  | .normal => 10
  | .high => 50
  | .urgent => 100

/-- Embeds `ResourceRequirements` from `models.py`.  `memory_gb` is a
Python `float` (IEEE-754 binary64) in the source; it is carried here as the
exact rational value it denotes (every binary64 value is a rational), which
is faithful for comparisons; the rounding of float arithmetic on these
values is modelled by `F64` below. -/
structure ResourceRequirements where
  cpus : Int
  gpus : Int
  memory_gb : ℚ
  time_limit_minutes : Int
deriving DecidableEq

/-- The pydantic `Field` bounds on `ResourceRequirements`
(`cpus` 1..1024, `gpus` 0..64, `memory_gb` 0.1..4096,
`time_limit_minutes` 1..43200); a submission object that reaches
`JobScheduler.submit_job` has passed them. -/
def ValidResources (r : ResourceRequirements) : Prop :=
  1 ≤ r.cpus ∧ r.cpus ≤ 1024 ∧ 0 ≤ r.gpus ∧ r.gpus ≤ 64 ∧
    (1 : ℚ)/10 ≤ r.memory_gb ∧ r.memory_gb ≤ 4096 ∧
    1 ≤ r.time_limit_minutes ∧ r.time_limit_minutes ≤ 43200

/-- Embeds `JobSubmission` from `models.py`. -/
structure JobSubmission where
  name : String
  partition : String
  priority : Priority
  resources : ResourceRequirements
  command : String
  account : Option String
  user : String
deriving DecidableEq

/-- Embeds Python `str.strip()` on the job name: drop leading and trailing
whitespace. -/
def pyStrip (s : String) : String :=
  String.mk (((s.data.dropWhile Char.isWhitespace).reverse.dropWhile
    Char.isWhitespace).reverse)

/-- Embeds Python `str.replace(" ", "_")`: the pattern is a single character,
so this is a character map. -/
def pyReplaceSpace (s : String) : String :=
  String.mk (s.data.map (fun c => if c = ' ' then '_' else c))

/-- Embeds `JobSubmission.validate_name` from `models.py`:
`v.strip().replace(" ", "_")`. -/
def validate_name (v : String) : String := pyReplaceSpace (pyStrip v)

/-- Embeds pydantic validation of the `name` field of `JobSubmission`:
the declared constraints `min_length=1, max_length=255` are checked on the
raw input value, and only then does the `validate_name` field validator
(mode "after") normalize it. -/
def validateSubmissionName (v : String) : Option String :=
  if 1 ≤ v.length ∧ v.length ≤ 255 then some (validate_name v) else none

/-- Embeds `Job` from `models.py`; timestamps are integer seconds. -/
structure Job where
  id : String
  name : String
  partition : String
  priority : Priority
  priority_value : Int
  resources : ResourceRequirements
  command : String
  account : Option String
  user : String
  state : JobState
  exit_code : Option Int
  node_id : Option String
  submit_time : Int
  start_time : Option Int
  end_time : Option Int
deriving DecidableEq

/-- Embeds `Partition` from `models.py`.  The `*_memory_gb` fields are
Python `float`s in the source; `total_memory_gb` is a constant (exactly
representable), while `allocated_memory_gb` is an accumulator whose float
rounding is ignored by this `ℚ` field — the exact-arithmetic idealization.
Claims touched by that rounding (C6, C7) are settled against the `F64`
float model as well. -/
structure Partition where
  name : String
  state : PartitionState
  total_nodes : Int
  total_cpus : Int
  total_gpus : Int
  total_memory_gb : ℚ
  allocated_cpus : Int
  allocated_gpus : Int
  allocated_memory_gb : ℚ
  max_time_minutes : Int
  default_time_minutes : Int
  jobs_running : Int
  jobs_pending : Int
deriving DecidableEq

/-- Embeds the `idle_cpus` property of `Partition`. -/
def Partition.idle_cpus (p : Partition) : Int := p.total_cpus - p.allocated_cpus

/-- Embeds the `idle_gpus` property of `Partition`. -/
def Partition.idle_gpus (p : Partition) : Int := p.total_gpus - p.allocated_gpus

/-- Embeds the `idle_memory_gb` property of `Partition`. -/
def Partition.idle_memory_gb (p : Partition) : ℚ :=
  p.total_memory_gb - p.allocated_memory_gb

/-- Little-endian decimal digits of `n`, with explicit fuel so that the
definition is structurally recursive (kernel-reducible). -/
def toDigitsLEAux : Nat → Nat → List Nat
  | _, 0 => []
  | 0, _ + 1 => []
  | fuel + 1, m + 1 => ((m + 1) % 10) :: toDigitsLEAux fuel ((m + 1) / 10)

/-- Little-endian decimal digits of `n` (empty for 0). -/
def toDigitsLE (n : Nat) : List Nat := toDigitsLEAux n n

/-- The ASCII character of a decimal digit. -/
def digitChar (d : Nat) : Char := Char.ofNat (48 + d)

/-- Embeds the Python format `f"{n:06d}"` used for job ids: the decimal
representation of `n`, left-padded with zeros to at least six characters. -/
def fmt6 (n : Nat) : String :=
  let ds := (toDigitsLE n).reverse.map digitChar
  String.mk (List.replicate (6 - ds.length) '0' ++ ds)

/-- Embeds the Python format `f"{n:02d}"` used for node numbers. -/
def fmt02 (n : Int) : String :=
  let s := if 0 ≤ n then String.mk ((toDigitsLE n.natAbs).reverse.map digitChar)
    else "-" ++ String.mk ((toDigitsLE n.natAbs).reverse.map digitChar)
  let s := if n = 0 then "0" else s
  if s.length < 2 then "0" ++ s else s

/-- Decimal decoding of a job-id string; a left inverse of `fmt6`. -/
def decode6 (s : String) : Nat :=
  Nat.ofDigits 10 ((s.data.map (fun c => c.toNat - 48)).reverse)

/-- The scheduler state: the fields of the `JobScheduler` object from
`scheduler.py` together with the module-level Prometheus counters it
increments.  `jobs` models the `self.jobs` dict (association by `Job.id`),
`partitions` the `self.partitions` dict (association by `Partition.name`),
and the `jobs_by_*` fields model the `defaultdict(set)` indexes as
insertion-ordered lists. -/
structure JobScheduler where
  jobs : List Job
  partitions : List Partition
  job_counter : Nat
  jobs_by_state : JobState → List String
  jobs_by_user : String → List String
  jobs_by_account : String → List String
  jobs_by_partition : String → List String
  completed_jobs : List (Int × Job)
  jobs_submitted_total : Nat
  jobs_cancelled_total : Nat
  jobs_completed_total : Nat
  jobs_failed_total : Nat
  jobs_timeout_total : Nat

/-- Embeds `self.jobs.get(job_id)`. -/
def findJob (s : JobScheduler) (jid : String) : Option Job :=
  s.jobs.find? (fun j => decide (j.id = jid))

/-- Embeds `self.partitions.get(name)` / `self.partitions[name]`. -/
def findPartition (s : JobScheduler) (pname : String) : Option Partition :=
  s.partitions.find? (fun p => decide (p.name = pname))

/-- Embeds `self.jobs[job_id] = job` (dict assignment: replace the entry with
that key if present, otherwise append). -/
def dictInsert (jobs : List Job) (job : Job) : List Job :=
  if jobs.any (fun j => decide (j.id = job.id)) then
    jobs.map (fun j => if j.id = job.id then job else j)
  else jobs ++ [job]

/-- Embeds in-place mutation of the job object stored in `self.jobs`. -/
def updateJob (jobs : List Job) (job : Job) : List Job :=
  jobs.map (fun j => if j.id = job.id then job else j)

/-- Embeds in-place mutation of the partition object stored in
`self.partitions`. -/
def updatePartition (ps : List Partition) (pname : String)
    (f : Partition → Partition) : List Partition :=
  ps.map (fun p => if p.name = pname then f p else p)

/-- Embeds `set.add` on a `_jobs_by_state` bucket. -/
def indexAdd (f : JobState → List String) (st : JobState) (jid : String) :
    JobState → List String :=
  fun st' => if st' = st then (if jid ∈ f st then f st else f st ++ [jid])
    else f st'

/-- Embeds `set.discard` on a `_jobs_by_state` bucket. -/
def indexDiscard (f : JobState → List String) (st : JobState) (jid : String) :
    JobState → List String :=
  fun st' => if st' = st then (f st).erase jid else f st'

/-- Embeds `set.add` on a string-keyed index (`_jobs_by_user`,
`_jobs_by_account`, `_jobs_by_partition`). -/
def strIndexAdd (f : String → List String) (key : String) (jid : String) :
    String → List String :=
  fun key' => if key' = key then (if jid ∈ f key then f key else f key ++ [jid])
    else f key'

/-- The tuple `(COMPLETED, FAILED, CANCELLED, TIMEOUT)` used by
`_transition_job` (completed-jobs window) and `cancel_job` (terminal check)
in `scheduler.py`. -/
def terminalStates : List JobState :=
  [.COMPLETED, .FAILED, .CANCELLED, .TIMEOUT]

/-- The resource release performed by `_transition_job` on the partition
object when a job leaves RUNNING.  The memory subtraction is exact `ℚ`
here, idealizing the float `-=` of the source (which rounds; see
`releaseMemF` for the faithful float step). -/
def releaseAlloc (job : Job) (p : Partition) : Partition :=
  { p with
    allocated_cpus := p.allocated_cpus - job.resources.cpus
    allocated_gpus := p.allocated_gpus - job.resources.gpus
    allocated_memory_gb := (p.allocated_memory_gb - job.resources.memory_gb)
    jobs_running := p.jobs_running - 1 }

/-- The `if old_state == JobState.RUNNING` block of `_transition_job`:
release resources on the job's partition if it exists. -/
def releasePartitions (s : JobScheduler) (job : Job) : JobScheduler :=
  if job.state = JobState.RUNNING then
    match findPartition s job.partition with
    | some _ =>
      { s with partitions :=
        (updatePartition s.partitions job.partition (releaseAlloc job)) }
    | none => s
  else s

/-- The mutation of the job object performed by `_transition_job`. -/
def transitionedJob (job : Job) (new_state : JobState)
    (exit_code : Option Int) (now : Int) : Job :=
  { job with
    state := new_state
    end_time := some now
    exit_code := (match exit_code with
      | some c => some c
      | none => job.exit_code) }

/-- Embeds `JobScheduler._transition_job` from `scheduler.py`.  Returns the
new state together with the mutated job object.  `now` is the
`datetime.utcnow()` observation in seconds. -/
def transition_job (s : JobScheduler) (job : Job) (new_state : JobState)
    (exit_code : Option Int) (now : Int) : JobScheduler × Job :=
  let s := releasePartitions s job
  let s := { s with jobs_by_state := (indexAdd
    (indexDiscard s.jobs_by_state job.state job.id) new_state job.id) }
  let job' := transitionedJob job new_state exit_code now
  let s := { s with jobs := updateJob s.jobs job' }
  let s :=
    if new_state ∈ terminalStates then
      { s with completed_jobs :=
        ((s.completed_jobs ++ [(now, job')]).filter
          (fun tj => decide (now - 86400 < tj.1))) }
    else s
  (s, job')

/-- Embeds `JobScheduler._can_schedule` from `scheduler.py`. -/
def can_schedule (job : Job) (partition : Partition) : Bool :=
  if job.resources.cpus > partition.idle_cpus then false
  else if job.resources.gpus > partition.idle_gpus then false
  else if job.resources.memory_gb > partition.idle_memory_gb then false
  else true

/-- The node number `(hash(job.id) % partition.total_nodes) + 1` computed in
`JobScheduler._start_job`; `h` is the run's string hash function and `%` is
Python's modulo (Lean's `Int.emod`, nonnegative for a positive modulus). -/
def node_number (h : String → Int) (jid : String) (partition : Partition) :
    Int :=
  h jid % partition.total_nodes + 1

/-- The resource allocation performed by `_start_job` on the partition
object.  The memory addition is exact `ℚ` here, idealizing the float `+=`
of the source (which rounds; see `acquireMemF` for the faithful float
step). -/
def acquireAlloc (job : Job) (p : Partition) : Partition :=
  { p with
    allocated_cpus := p.allocated_cpus + job.resources.cpus
    allocated_gpus := p.allocated_gpus + job.resources.gpus
    allocated_memory_gb := (p.allocated_memory_gb + job.resources.memory_gb)
    jobs_pending := p.jobs_pending - 1
    jobs_running := p.jobs_running + 1 }

/-- Embeds `JobScheduler._start_job` from `scheduler.py`, parameterized by the
run's string hash function `h`.  Returns the new state and the mutated job. -/
def start_job (h : String → Int) (s : JobScheduler) (job : Job)
    (partition : Partition) (now : Int) : JobScheduler × Job :=
  let s := { s with partitions := (updatePartition s.partitions partition.name
    (acquireAlloc job)) }
  let job' := { job with
    state := JobState.RUNNING
    start_time := some now
    node_id := some (partition.name ++ "-node-" ++
      fmt02 (node_number h job.id partition)) }
  let s := { s with jobs := updateJob s.jobs job' }
  let s := { s with jobs_by_state := (indexAdd
    (indexDiscard s.jobs_by_state JobState.PENDING job.id)
      JobState.RUNNING job.id) }
  (s, job')

/-- Embeds the sort key comparison of `_schedule_pending_jobs`:
`key=lambda j: (-j.priority_value, j.submit_time)`, i.e. descending
`priority_value`, then ascending `submit_time`. -/
def schedLe (a b : Job) : Bool :=
  decide (b.priority_value < a.priority_value) ||
    (decide (a.priority_value = b.priority_value) &&
      decide (a.submit_time ≤ b.submit_time))

/-- The `pending_jobs` snapshot of `_schedule_pending_jobs`:
`[self.jobs[jid] for jid in self._jobs_by_state[JobState.PENDING]]`. -/
def pendingSnapshot (s : JobScheduler) : List Job :=
  (s.jobs_by_state JobState.PENDING).filterMap (findJob s)

/-- The sorted pending list of `_schedule_pending_jobs`. -/
def sortPending (s : JobScheduler) : List Job :=
  (pendingSnapshot s).mergeSort schedLe

/-- The admission loop of `_schedule_pending_jobs`: walk the sorted pending
jobs, skip jobs whose partition is missing or not UP, start jobs that fit.
Also returns the list of jobs admitted in this pass, in admission order. -/
def schedulePass (h : String → Int) (now : Int) :
    JobScheduler → List Job → JobScheduler × List Job
  | s, [] => (s, [])
  | s, job :: rest =>
    match findPartition s job.partition with
    | none => schedulePass h now s rest
    | some partition =>
      if partition.state = PartitionState.UP then
        if can_schedule job partition then
          let q := start_job h s job partition now
          let r := schedulePass h now q.1 rest
          (r.1, job :: r.2)
        else schedulePass h now s rest
      else schedulePass h now s rest

/-- Embeds `JobScheduler._schedule_pending_jobs` from `scheduler.py`. -/
def schedule_pending_jobs (h : String → Int) (s : JobScheduler) (now : Int) :
    JobScheduler :=
  (schedulePass h now s (sortPending s)).1

/-- Embeds `JobScheduler._check_running_jobs` from `scheduler.py`.
`rolls jid` gives the two `random.random()` draws used for job `jid` in this
cycle (the spec requires the randomness source to be injectable). -/
def check_running_jobs (rolls : String → ℚ × ℚ) (s : JobScheduler)
    (now : Int) : JobScheduler :=
  (s.jobs_by_state JobState.RUNNING).foldl (fun s jid =>
    match findJob s jid with
    | none => s
    | some job =>
      match job.start_time with
      | none => s
      | some st =>
        let runtime : Int := now - st
        let time_limit : Int := job.resources.time_limit_minutes * 60
        if runtime ≥ time_limit then
          let p := transition_job s job JobState.TIMEOUT none now
          { p.1 with jobs_timeout_total := p.1.jobs_timeout_total + 1 }
        else if (runtime : ℚ) / (max time_limit 60 : ℚ) > 3/10 ∧ runtime > 10
          then
          if (rolls jid).1 < 1/20 then
            if (rolls jid).2 < 19/20 then
              let p := transition_job s job JobState.COMPLETED none now
              { p.1 with jobs_completed_total := p.1.jobs_completed_total + 1 }
            else
              let p := transition_job s job JobState.FAILED (some 1) now
              { p.1 with jobs_failed_total := p.1.jobs_failed_total + 1 }
          else s
        else s) s

/-- Embeds `JobScheduler._schedule_cycle` from `scheduler.py` (the metrics
republication step does not change scheduler state). -/
def schedule_cycle (h : String → Int) (rolls : String → ℚ × ℚ)
    (s : JobScheduler) (now : Int) : JobScheduler :=
  schedule_pending_jobs h (check_running_jobs rolls s now) now

/-- Embeds `JobScheduler.submit_job` from `scheduler.py`.  The state is
returned in both outcomes: as in the source, `self.job_counter` is
incremented before validation, so a rejected submission still consumes the
id. -/
def submit_job (s : JobScheduler) (sub : JobSubmission) (now : Int) :
    JobScheduler × Except String Job :=
  let s := { s with job_counter := s.job_counter + 1 }
  let job_id := fmt6 s.job_counter
  let job : Job := {
    id := job_id
    name := sub.name
    partition := sub.partition
    priority := sub.priority
    priority_value := PRIORITY_VALUES sub.priority
    resources := sub.resources
    command := sub.command
    account := sub.account
    user := sub.user
    state := JobState.PENDING
    exit_code := none
    node_id := none
    submit_time := now
    start_time := none
    end_time := none }
  match findPartition s job.partition with
  | none => (s, Except.error ("Unknown partition: " ++ job.partition))
  | some partition =>
    if job.resources.cpus > partition.total_cpus then
      (s, Except.error "Requested CPUs exceed partition capacity")
    else if job.resources.gpus > partition.total_gpus then
      (s, Except.error "Requested GPUs exceed partition capacity")
    else if job.resources.memory_gb > partition.total_memory_gb then
      (s, Except.error "Requested memory exceeds partition capacity")
    else if job.resources.time_limit_minutes > partition.max_time_minutes then
      (s, Except.error "Time limit exceeds partition max")
    else
      let s := { s with jobs := dictInsert s.jobs job }
      let s := { s with jobs_by_state :=
        (indexAdd s.jobs_by_state JobState.PENDING job_id) }
      let s := { s with jobs_by_user :=
        (strIndexAdd s.jobs_by_user job.user job_id) }
      let s := match job.account with
        | some acct =>
          if acct = "" then s
          else { s with jobs_by_account :=
            (strIndexAdd s.jobs_by_account acct job_id) }
        | none => s
      let s := { s with jobs_by_partition :=
        (strIndexAdd s.jobs_by_partition job.partition job_id) }
      let s := { s with partitions :=
        (updatePartition s.partitions job.partition
          (fun p => { p with jobs_pending := p.jobs_pending + 1 })) }
      let s := { s with jobs_submitted_total := s.jobs_submitted_total + 1 }
      (s, Except.ok job)

/-- True when a submission outcome is a `ValueError` rejection. -/
def isErr : Except String Job → Bool
  | .error _ => true
  | .ok _ => false

/-- Embeds `JobScheduler.cancel_job` from `scheduler.py`. -/
def cancel_job (s : JobScheduler) (jid : String) (now : Int) :
    JobScheduler × Option Job :=
  match findJob s jid with
  | none => (s, none)
  | some job =>
    if job.state ∈ terminalStates then (s, some job)
    else
      let p := transition_job s job JobState.CANCELLED none now
      let s := { p.1 with jobs_cancelled_total := p.1.jobs_cancelled_total + 1 }
      (s, some p.2)

/-- The `gpu` partition from `JobScheduler._init_partitions`. -/
def gpuPartition : Partition := {
  name := "gpu", state := .UP, total_nodes := 4, total_cpus := 256,
  total_gpus := 32, total_memory_gb := 8192, allocated_cpus := 0,
  allocated_gpus := 0, allocated_memory_gb := 0, max_time_minutes := 7200,
  default_time_minutes := 60, jobs_running := 0, jobs_pending := 0 }

/-- The `cpu` partition from `JobScheduler._init_partitions`. -/
def cpuPartition : Partition := {
  name := "cpu", state := .UP, total_nodes := 4, total_cpus := 768,
  total_gpus := 0, total_memory_gb := 4096, allocated_cpus := 0,
  allocated_gpus := 0, allocated_memory_gb := 0, max_time_minutes := 10080,
  default_time_minutes := 120, jobs_running := 0, jobs_pending := 0 }

/-- The `highmem` partition from `JobScheduler._init_partitions`. -/
def highmemPartition : Partition := {
  name := "highmem", state := .UP, total_nodes := 2, total_cpus := 384,
  total_gpus := 0, total_memory_gb := 8192, allocated_cpus := 0,
  allocated_gpus := 0, allocated_memory_gb := 0, max_time_minutes := 4320,
  default_time_minutes := 240, jobs_running := 0, jobs_pending := 0 }

/-- The `debug` partition from `JobScheduler._init_partitions`. -/
def debugPartition : Partition := {
  name := "debug", state := .UP, total_nodes := 1, total_cpus := 16,
  total_gpus := 2, total_memory_gb := 128, allocated_cpus := 0,
  allocated_gpus := 0, allocated_memory_gb := 0, max_time_minutes := 30,
  default_time_minutes := 10, jobs_running := 0, jobs_pending := 0 }

/-- The freshly constructed scheduler: `JobScheduler.__init__` with the four
default partitions, no jobs, `job_counter = 0`. -/
def initScheduler : JobScheduler := {
  jobs := []
  partitions := [gpuPartition, cpuPartition, highmemPartition, debugPartition]
  job_counter := 0
  jobs_by_state := fun _ => []
  jobs_by_user := fun _ => []
  jobs_by_account := fun _ => []
  jobs_by_partition := fun _ => []
  completed_jobs := []
  jobs_submitted_total := 0
  jobs_cancelled_total := 0
  jobs_completed_total := 0
  jobs_failed_total := 0
  jobs_timeout_total := 0 }

/-- The public operations on a scheduler, for stating reachability:
submissions, cancellations, and scheduling cycles. -/
inductive Op where
  | submit (sub : JobSubmission) (now : Int)
  | cancel (jid : String) (now : Int)
  | cycle (now : Int) (rolls : String → ℚ × ℚ)

/-- Apply one public operation (the state part). -/
def applyOp (h : String → Int) (s : JobScheduler) : Op → JobScheduler
  | .submit sub now => (submit_job s sub now).1
  | .cancel jid now => (cancel_job s jid now).1
  | .cycle now rolls => schedule_cycle h rolls s now

/-- Submissions reaching `submit_job` carry pydantic-validated resources;
other operations are unconstrained. -/
def OpValid : Op → Prop
  | .submit sub _ => ValidResources sub.resources
  | .cancel _ _ => True
  | .cycle _ _ => True

/-- Run a sequence of public operations from the freshly constructed
scheduler. -/
def runOps (h : String → Int) (ops : List Op) : JobScheduler :=
  ops.foldl (applyOp h) initScheduler

/-! ### A model of Python's per-run salted string hash

`_start_job` computes `hash(job.id)` with Python's built-in `hash`.
Modelled from the spec: the design notes state that the node-assignment hash
used by the code has a seed that varies per run ("do not use a hash whose
seed varies per run"), i.e. `hash` on `str` is salted by a per-process random
key (CPython: siphash13 of the string's bytes under a 128-bit key drawn at
interpreter start, controllable with `PYTHONHASHSEED`).  The definitions
below model that keyed hash; `pyHashStr k0 k1` is the hash function of a run
whose key is `(k0, k1)`.  (For the all-zero key this model agrees with
CPython 3.11: `hash("000001") = -8562863779137239834`.) -/

/-- Truncation to 64 bits. -/
def wrap64 (x : Nat) : Nat := x % 18446744073709551616

/-- 64-bit left rotation (argument below `2 ^ 64`). -/
def rotl64 (x n : Nat) : Nat := wrap64 (x <<< n) ||| (x >>> (64 - n))

/-- The four 64-bit state words of siphash. -/
structure SipState where
  v0 : Nat
  v1 : Nat
  v2 : Nat
  v3 : Nat

/-- One siphash round. -/
def sipRound (s : SipState) : SipState :=
  let v0 := wrap64 (s.v0 + s.v1)
  let v1 := rotl64 s.v1 13
  let v1 := v1 ^^^ v0
  let v0 := rotl64 v0 32
  let v2 := wrap64 (s.v2 + s.v3)
  let v3 := rotl64 s.v3 16
  let v3 := v3 ^^^ v2
  let v0 := wrap64 (v0 + v3)
  let v3 := rotl64 v3 21
  let v3 := v3 ^^^ v0
  let v2 := wrap64 (v2 + v1)
  let v1 := rotl64 v1 17
  let v1 := v1 ^^^ v2
  let v2 := rotl64 v2 32
  ⟨v0, v1, v2, v3⟩

/-- Little-endian 64-bit word from up to eight bytes. -/
def leWord (bs : List Nat) : Nat := bs.foldr (fun b acc => b + 256 * acc) 0

/-- The compression loop of siphash13: one round per full 8-byte word;
returns the remaining tail bytes. -/
def sipLoop : SipState → List Nat → SipState × List Nat
  | st, b0 :: b1 :: b2 :: b3 :: b4 :: b5 :: b6 :: b7 :: rest =>
    let m := leWord [b0, b1, b2, b3, b4, b5, b6, b7]
    let st := { st with v3 := st.v3 ^^^ m }
    let st := sipRound st
    let st := { st with v0 := st.v0 ^^^ m }
    sipLoop st rest
  | st, rest => (st, rest)

/-- siphash13 of a byte string under the 128-bit key `(k0, k1)`. -/
def pysiphash13 (k0 k1 : Nat) (bs : List Nat) : Nat :=
  let b := wrap64 (bs.length <<< 56)
  let st : SipState := {
    v0 := k0 ^^^ 0x736f6d6570736575
    v1 := k1 ^^^ 0x646f72616e646f6d
    v2 := k0 ^^^ 0x6c7967656e657261
    v3 := k1 ^^^ 0x7465646279746573 }
  let p := sipLoop st bs
  let t := b ||| leWord p.2
  let st := { p.1 with v3 := p.1.v3 ^^^ t }
  let st := sipRound st
  let st := { st with v0 := st.v0 ^^^ t }
  let st := { st with v2 := st.v2 ^^^ 0xff }
  let st := sipRound (sipRound (sipRound st))
  (st.v0 ^^^ st.v1) ^^^ (st.v2 ^^^ st.v3)

/-- Reinterpret a 64-bit word as a signed integer. -/
def toSigned64 (x : Nat) : Int :=
  if x < 9223372036854775808 then (x : Int)
  else (x : Int) - 18446744073709551616

/-- Python's built-in `hash` on an (ASCII) string in the run whose salt key
is `(k0, k1)`: siphash13 of its bytes, reinterpreted as a signed 64-bit
value, with `-1` mapped to `-2` and the empty string hashing to 0. -/
def pyHashStr (k0 k1 : Nat) (s : String) : Int :=
  if s = "" then 0
  else
    let v := toSigned64 (pysiphash13 k0 k1 (s.data.map Char.toNat))
    if v = -1 then -2 else v

/-! ### Derived observations and invariants used by the claims -/

/-- Decimal decoding map used to reason about job-id freshness: a left
inverse of `fmt6`. -/
def decodeId (s : String) : Nat :=
  Nat.ofDigits 10 ((s.data.map (fun c => c.toNat - 48)).reverse)

/-- The running load of a partition name in a job table, summed with a
resource getter `get`: spec §3 "Summed per-partition allocated resources
equal summed per-job resources over RUNNING jobs on that partition". -/
def loadOn {M : Type} [AddCommMonoid M] (get : ResourceRequirements → M)
    (jobs : List Job) (pname : String) : M :=
  (jobs.map (fun j =>
    if j.partition = pname ∧ j.state = JobState.RUNNING then get j.resources
    else 0)).sum

/-- The per-partition allocation counters of a state (name, cpus, gpus,
memory). -/
def partsAlloc (s : JobScheduler) : List (String × Int × Int × ℚ) :=
  s.partitions.map (fun p =>
    (p.name, p.allocated_cpus, p.allocated_gpus, p.allocated_memory_gb))

/-- The inductive invariant of the scheduler state: partition names are
distinct; every partition's allocation counters equal the summed resources
of RUNNING jobs on it and stay below the totals; stored resources are
nonnegative; job ids are distinct decimal encodings bounded by the id
counter; the state buckets contain only ids of stored jobs in that state,
without duplicates. -/
structure Inv (s : JobScheduler) : Prop where
  pnames : (s.partitions.map Partition.name).Nodup
  alloc_cpus : ∀ p ∈ s.partitions,
    p.allocated_cpus = loadOn (fun r => r.cpus) s.jobs p.name
  alloc_gpus : ∀ p ∈ s.partitions,
    p.allocated_gpus = loadOn (fun r => r.gpus) s.jobs p.name
  alloc_mem : ∀ p ∈ s.partitions,
    p.allocated_memory_gb = loadOn (fun r => r.memory_gb) s.jobs p.name
  le_total_cpus : ∀ p ∈ s.partitions, p.allocated_cpus ≤ p.total_cpus
  le_total_gpus : ∀ p ∈ s.partitions, p.allocated_gpus ≤ p.total_gpus
  le_total_mem : ∀ p ∈ s.partitions,
    p.allocated_memory_gb ≤ p.total_memory_gb
  res_nonneg : ∀ j ∈ s.jobs,
    0 ≤ j.resources.cpus ∧ 0 ≤ j.resources.gpus ∧ 0 ≤ j.resources.memory_gb
  ids_nodup : (s.jobs.map Job.id).Nodup
  ids_bounded : ∀ j ∈ s.jobs, decodeId j.id ≤ s.job_counter
  buckets : ∀ st jid, jid ∈ s.jobs_by_state st →
    ∃ j ∈ s.jobs, j.id = jid ∧ j.state = st
  buckets_nodup : ∀ st, (s.jobs_by_state st).Nodup

/-! ### Concrete inputs used by counterexamples and witnesses -/

/-- A small valid resource request (1 CPU, no GPU, 1 GB, 10 minutes). -/
def c1Res : ResourceRequirements :=
  { cpus := 1, gpus := 0, memory_gb := 1, time_limit_minutes := 10 }

/-- A valid submission to the `debug` partition. -/
def c1Sub : JobSubmission :=
  { name := "test", partition := "debug", priority := .normal,
    resources := c1Res, command := "echo hi", account := none,
    user := "alice" }

/-- The spec's S4 scenario: a submission to `debug` requesting 17 CPUs
(capacity 16). -/
def s4Sub : JobSubmission :=
  { name := "big", partition := "debug", priority := .normal,
    resources :=
      { cpus := 17, gpus := 0, memory_gb := 1, time_limit_minutes := 10 },
    command := "echo hi", account := none, user := "alice" }

/-- A submission whose resources exactly equal the `debug` partition totals
(16 CPUs, 2 GPUs, 128 GB) with the maximal time limit (30 minutes). -/
def exactSub : JobSubmission :=
  { name := "full", partition := "debug", priority := .normal,
    resources :=
      { cpus := 16, gpus := 2, memory_gb := 128, time_limit_minutes := 30 },
    command := "echo hi", account := none, user := "alice" }

/-- A concrete PENDING job on the `debug` partition. -/
def c7Job : Job :=
  { id := "000042", name := "train", partition := "debug", priority := .high,
    priority_value := 50, resources := c1Res, command := "echo hi",
    account := none, user := "bob", state := .PENDING, exit_code := none,
    node_id := none, submit_time := 0, start_time := none, end_time := none }

/-- A job record in state NODE_FAIL. -/
def nfJob : Job := { c7Job with id := "000001", state := .NODE_FAIL }

/-- A scheduler state holding one NODE_FAIL job. -/
def sNF : JobScheduler :=
  { initScheduler with
    jobs := [nfJob]
    jobs_by_state :=
      (fun st => if st = JobState.NODE_FAIL then ["000001"] else []) }

/-- A short concrete run: submit a valid job, cancel it, run one cycle. -/
def demoOps : List Op :=
  [Op.submit c1Sub 0, Op.cancel "000001" 1,
    Op.cycle 2 (fun _ => ((1 : ℚ), (1 : ℚ)))]

/-! ### A model of Python float (IEEE-754 binary64) memory arithmetic

Modelled from the spec: the `memory_gb` request field and the partition's
`allocated_memory_gb` counter are Python `float`s — IEEE-754 binary64
values — and `_start_job` / `_transition_job` update the counter with float
`+=` / `-=`, which round the exact result to 53 significant bits (round to
nearest, ties to even).  The `ℚ`-typed fields used in the rest of this file
are the exact-arithmetic idealization of those counters (faithful for the
pure order comparisons of validation and admission, and for the integer
`cpus`/`gpus` counters, which Python keeps exact); the definitions below
model the rounding itself, for finite values in the normal range (overflow,
infinities and subnormals do not arise at the magnitudes involved).
`F64.mk m e` denotes the real number `m * 2 ^ e`; all operations return the
canonical form (odd mantissa, or zero with exponent zero), so equality of
values is structural equality. -/

/-- A finite binary64 value `m * 2 ^ e` (canonical form: `m` odd, or
`m = 0` and `e = 0`). -/
structure F64 where
  m : Int
  e : Int
deriving DecidableEq

/-- Bit length of a natural number, with explicit fuel for structural
recursion. -/
def bitsAux : Nat → Nat → Nat
  | 0, _ => 0
  | fuel + 1, n => if n = 0 then 0 else bitsAux fuel (n / 2) + 1

/-- Bit length: for `n ≥ 1`, `2 ^ (bits n - 1) ≤ n < 2 ^ bits n`. -/
def bits (n : Nat) : Nat := bitsAux n n

/-- Strip trailing zero bits to reach the canonical representation. -/
def f64normAux : Nat → Int → Int → F64
  | 0, m, e => ⟨m, e⟩
  | fuel + 1, m, e =>
    if m % 2 = 0 then f64normAux fuel (m / 2) (e + 1) else ⟨m, e⟩

/-- Canonicalize a nonzero mantissa/exponent pair (zero maps to the
canonical zero). -/
def f64norm (m e : Int) : F64 :=
  if m = 0 then ⟨0, 0⟩ else f64normAux m.natAbs m e

/-- Round the exact value `M * 2 ^ E` to 53 significant bits, to nearest
with ties to even — the binary64 rounding applied after every float
addition or subtraction. -/
def f64round (M : Int) (E : Int) : F64 :=
  if M = 0 then ⟨0, 0⟩
  else
    let a := M.natAbs
    let b := bits a
    if b ≤ 53 then f64norm M E
    else
      let shift := b - 53
      let q := a >>> shift
      let r := a % 2 ^ shift
      let half := 2 ^ (shift - 1)
      let q' :=
        if half < r then q + 1
        else if r < half then q
        else if q % 2 = 0 then q else q + 1
      f64norm (if M < 0 then -(q' : Int) else (q' : Int)) (E + shift)

/-- Binary64 addition: round the exact sum. -/
def f64add (x y : F64) : F64 :=
  let E := min x.e y.e
  f64round (x.m * 2 ^ (x.e - E).toNat + y.m * 2 ^ (y.e - E).toNat) E

/-- Binary64 negation (exact). -/
def f64neg (x : F64) : F64 := ⟨-x.m, x.e⟩

/-- Binary64 subtraction: round the exact difference. -/
def f64sub (x y : F64) : F64 := f64add x (f64neg y)

/-- Order comparison of two binary64 values (exact, as in hardware). -/
def f64le (x y : F64) : Bool :=
  let E := min x.e y.e
  decide (x.m * 2 ^ (x.e - E).toNat ≤ y.m * 2 ^ (y.e - E).toNat)

/-- The float `0.0` that `allocated_memory_gb` starts from. -/
def f64zero : F64 := ⟨0, 0⟩

/-- Embedding of an exactly representable natural number (all partition
totals are below `2 ^ 53`). -/
def f64OfNat (n : Nat) : F64 := f64norm n 0

/-- The `partition.allocated_memory_gb += job.resources.memory_gb` of
`_start_job`, under the float semantics. -/
def acquireMemF (alloc req : F64) : F64 := f64add alloc req

/-- The `partition.allocated_memory_gb -= job.resources.memory_gb` of
`_transition_job` (release on leaving RUNNING), under the float
semantics. -/
def releaseMemF (alloc req : F64) : F64 := f64sub alloc req

/-- The binary64 value of the Python literal `0.1` (pydantic's `ge=0.1`
bound, and a 0.1 GB request): `3602879701896397 * 2 ^ (-55)`. -/
def f64_tenth : F64 := ⟨3602879701896397, -55⟩

/-- The binary64 value of the Python literal `0.2`:
`3602879701896397 * 2 ^ (-54)`. -/
def f64_fifth : F64 := ⟨3602879701896397, -54⟩

/-- A memory request of `2048 + 2 ^ (-41)` GB — exactly representable
(53-bit mantissa `2 ^ 52 + 1`) and pydantic-valid (between 0.1 and
4096). -/
def f64_memA : F64 := ⟨4503599627370497, -41⟩

/-- A memory request of `2048.5` GB. -/
def f64_memB : F64 := ⟨4097, -1⟩

/-! ## Helper lemmas -/

theorem toDigitsLEAux_eq :
    ∀ fuel m : Nat, m ≤ fuel → toDigitsLEAux fuel m = Nat.digits 10 m := by
  intro fuel
  induction fuel with
  | zero =>
    intro m hm
    have : m = 0 := Nat.le_zero.mp hm
    subst this
    simp [toDigitsLEAux]
  | succ f ih =>
    intro m hm
    cases m with
    | zero => simp [toDigitsLEAux]
    | succ k =>
      rw [toDigitsLEAux, Nat.digits_def' (by norm_num : (1:ℕ) < 10)
        (Nat.succ_pos k)]
      congr 1
      exact ih ((k + 1) / 10) (by
        have h1 : (k + 1) / 10 < k + 1 := Nat.div_lt_self (Nat.succ_pos k)
          (by norm_num)
        omega)

theorem toDigitsLE_eq (n : Nat) : toDigitsLE n = Nat.digits 10 n :=
  toDigitsLEAux_eq n n le_rfl

theorem ofDigits_replicate_zero (k : Nat) :
    Nat.ofDigits 10 (List.replicate k 0) = 0 := by
  induction k with
  | zero => rfl
  | succ m ih => simp [List.replicate, Nat.ofDigits_cons, ih]

theorem digitChar_toNat (d : Nat) (hd : d < 10) :
    (digitChar d).toNat - 48 = d := by
  interval_cases d <;> rfl

theorem decodeId_fmt6 (n : Nat) : decodeId (fmt6 n) = n := by
  have hd : ∀ d ∈ (Nat.digits 10 n).reverse, d < 10 := fun d hdm =>
    Nat.digits_lt_base (by norm_num) (List.mem_reverse.mp hdm)
  have h1 : List.map ((fun c => c.toNat - 48) ∘ digitChar)
      (Nat.digits 10 n).reverse = (Nat.digits 10 n).reverse := by
    refine (List.map_congr_left ?_).trans (List.map_id _)
    intro d hdm
    simpa [Function.comp] using digitChar_toNat d (hd d hdm)
  have hchars : ∀ l : List Char, (String.mk l).data = l := fun _ => rfl
  unfold decodeId fmt6
  rw [toDigitsLE_eq, hchars]
  rw [List.map_append, List.map_replicate, List.map_map, h1]
  rw [show ('0'.toNat - 48 : ℕ) = 0 from rfl]
  rw [List.reverse_append, List.reverse_reverse, List.reverse_replicate]
  rw [Nat.ofDigits_append, Nat.ofDigits_digits, ofDigits_replicate_zero]
  simp

theorem fmt6_fresh (c : Nat) (x : String) (hx : decodeId x ≤ c) :
    x ≠ fmt6 (c + 1) := by
  intro h
  rw [h, decodeId_fmt6] at hx
  omega

theorem findPartition_name {s : JobScheduler} {pname : String} {p : Partition}
    (hp : findPartition s pname = some p) : p.name = pname := by
  simpa using List.find?_some hp

theorem tj_snd (s : JobScheduler) (j : Job) (ns : JobState) (ec : Option Int)
    (now : Int) :
    (transition_job s j ns ec now).2 = transitionedJob j ns ec now := by
  unfold transition_job
  split <;> rfl

theorem tj_cancelled_total (s : JobScheduler) (j : Job) (ns : JobState)
    (ec : Option Int) (now : Int) :
    (transition_job s j ns ec now).1.jobs_cancelled_total =
      s.jobs_cancelled_total := by
  unfold transition_job releasePartitions
  split
  · split
    · split <;> rfl
    · split <;> rfl
  · split <;> rfl

theorem tj_partitions (s : JobScheduler) (j : Job) (ns : JobState)
    (ec : Option Int) (now : Int) :
    (transition_job s j ns ec now).1.partitions =
      (releasePartitions s j).partitions := by
  unfold transition_job
  split <;> rfl

theorem updatePartition_find? (ps : List Partition) (n m : String)
    (f : Partition → Partition) (hf : ∀ q, (f q).name = q.name) :
    (updatePartition ps n f).find? (fun p => decide (p.name = m)) =
      (ps.find? (fun p => decide (p.name = m))).map
        (fun p => if p.name = n then f p else p) := by
  have hpred : ((fun p => decide (p.name = m)) ∘
      fun p => if p.name = n then f p else p) =
      (fun p : Partition => decide (p.name = m)) := by
    funext q
    by_cases hq : q.name = n <;> simp [Function.comp, hq, hf]
  unfold updatePartition
  rw [List.find?_map, hpred]

theorem updatePartition_same_key (ps : List Partition) (n : String)
    (f g : Partition → Partition) (hf : ∀ q, (f q).name = q.name) :
    updatePartition (updatePartition ps n f) n g =
      ps.map (fun p => if p.name = n then g (f p) else p) := by
  unfold updatePartition
  rw [List.map_map]
  refine List.map_congr_left ?_
  intro p _
  by_cases hp : p.name = n
  · simp [Function.comp, hp, hf]
  · simp [Function.comp, hp]

theorem schedLe_trans :
    ∀ a b c : Job, schedLe a b = true → schedLe b c = true →
      schedLe a c = true := by
  intro a b c
  simp only [schedLe, Bool.or_eq_true, Bool.and_eq_true, decide_eq_true_eq]
  omega

theorem schedLe_total : ∀ a b : Job, (schedLe a b || schedLe b a) = true := by
  intro a b
  simp only [schedLe, Bool.or_eq_true, Bool.and_eq_true, decide_eq_true_eq]
  omega

theorem schedulePass_sublist (h : String → Int) (now : Int) :
    ∀ (l : List Job) (s : JobScheduler),
      List.Sublist (schedulePass h now s l).2 l := by
  intro l
  induction l with
  | nil => intro s; simp [schedulePass]
  | cons job rest ih =>
    intro s
    simp only [schedulePass]
    split
    · exact (ih s).cons job
    · split
      · split
        · exact (ih _).cons₂ job
        · exact (ih s).cons job
      · exact (ih s).cons job

/-! ## Claim theorems -/

/-- Claim C1: the claim states that submitting a job and cancelling it while
still PENDING restores every partition counter to its pre-submission value;
the spec's invariant also requires `jobs_pending` to equal the number of
PENDING jobs.  The code violates this: `_transition_job` never decrements
`partition.jobs_pending` when a job leaves PENDING by cancellation, so after
submit + cancel the `debug` partition still shows `jobs_pending = 1` (it was
0 before the submission), while the allocation counters and `jobs_running`
are unchanged.  This evaluates the embedded code on the failing input. -/
theorem c1_submit_cancel_leaves_jobs_pending_stale :
    (findPartition initScheduler "debug").map (fun p => p.jobs_pending) =
      some 0
  ∧ isErr (submit_job initScheduler c1Sub 0).2 = false
  ∧ ((cancel_job (submit_job initScheduler c1Sub 0).1 "000001" 1).2.map
      (fun j => j.state)) = some JobState.CANCELLED
  ∧ (findPartition (cancel_job (submit_job initScheduler c1Sub 0).1
      "000001" 1).1 "debug").map
      (fun p => (p.jobs_pending, p.jobs_running, p.allocated_cpus,
        p.allocated_gpus, p.allocated_memory_gb)) =
      some (1, 0, 0, 0, (0 : ℚ)) := by
  decide

/-- Claim C2 (counterexample): the claim states that a rejected submission
leaves the scheduler state entirely unchanged, in particular that no job id
is consumed.  On the S4 input (17 CPUs on `debug`) the submission is
rejected, yet `job_counter` has advanced from 0 to 1: the id was consumed. -/
theorem c2_rejected_submission_consumes_id :
    initScheduler.job_counter = 0
  ∧ isErr (submit_job initScheduler s4Sub 0).2 = true
  ∧ (submit_job initScheduler s4Sub 0).1.job_counter = 1 := by
  decide

/-- Claim C2 (amended): a submission rejected by validation leaves every
component of the scheduler state unchanged — no job record, no index entry,
`jobs_pending` and `jobs_submitted_total` untouched — except the monotonic
id counter, which is incremented before validation and is therefore consumed
even by rejected submissions. -/
theorem c2_rejection_changes_only_job_counter (s : JobScheduler)
    (sub : JobSubmission) (now : Int)
    (herr : isErr (submit_job s sub now).2 = true) :
    (submit_job s sub now).1 = { s with job_counter := s.job_counter + 1 } := by
  cases hfp : findPartition { s with job_counter := s.job_counter + 1 }
      sub.partition with
  | none =>
    simp only [submit_job, hfp]
  | some partition =>
    simp only [submit_job, hfp] at herr ⊢
    split_ifs at herr ⊢ <;> simp_all [isErr]

/-- Witness for the amended C2 theorem at the S4 oversized submission. -/
theorem c2_rejection_changes_only_job_counter_witness :
    (submit_job initScheduler s4Sub 0).1 =
      { initScheduler with job_counter := initScheduler.job_counter + 1 } :=
  c2_rejection_changes_only_job_counter initScheduler s4Sub 0 (by decide)

/-- Claim C3: the claim states that the node assignment hash is deterministic
across runs.  The code computes `hash(job.id)` with Python's built-in salted
string hash; under the modelled per-run keyed hash (`pyHashStr`, siphash13,
which for the all-zero key agrees with CPython 3.11 on `"000001"`), two runs
with different keys assign different node numbers to the same job id on the
same `gpu` partition, refuting cross-run determinism. -/
theorem c3_node_assignment_differs_across_runs :
    pyHashStr 0 0 "000001" = -8562863779137239834
  ∧ node_number (pyHashStr 0 0) "000001" gpuPartition = 3
  ∧ node_number (pyHashStr 0 1) "000001" gpuPartition = 4
  ∧ node_number (pyHashStr 0 0) "000001" gpuPartition ≠
      node_number (pyHashStr 0 1) "000001" gpuPartition := by
  decide

/-- Claim C4 (counterexample): the claim states that a submission whose name
is empty after normalization (for example whitespace-only) is rejected.  In
the code the `min_length=1` constraint applies to the raw value and the
normalizing validator runs afterwards, so the one-space name `" "` passes
validation and normalizes to the empty string rather than being rejected. -/
theorem c4_whitespace_name_accepted_as_empty :
    validateSubmissionName " " = some "" := by
  decide

/-- Claim C4 (amended): name normalization strips outer whitespace and
replaces inner spaces with underscores, and a submission name is rejected
exactly when its raw length violates the declared 1..255 bounds; a
whitespace-only (nonempty) name is accepted and normalizes to the empty
string. -/
theorem c4_name_normalization_amended :
    validateSubmissionName "" = none
  ∧ validateSubmissionName " " = some ""
  ∧ validateSubmissionName "  a b " = some "a_b"
  ∧ (∀ v : String,
      validateSubmissionName v = none ↔ ¬(1 ≤ v.length ∧ v.length ≤ 255)) := by
  refine ⟨by decide, by decide, by decide, ?_⟩
  intro v
  unfold validateSubmissionName
  split <;> simp_all

/-- Claim C5: in every scheduling cycle the pending jobs are evaluated in the
order of the composite key (descending `priority_value`, ascending
`submit_time`): the processed list is sorted by that key, the jobs admitted
in the pass form a subsequence of it, and hence any two admitted jobs are
admitted in key order — a higher `priority_value` is admitted first, and at
equal priority the earlier `submit_time` is admitted first. -/
theorem c5_admission_priority_fifo_order (h : String → Int)
    (s : JobScheduler) (now : Int) :
    List.Pairwise (fun a b => schedLe a b = true) (sortPending s)
  ∧ List.Sublist ((schedulePass h now s (sortPending s)).2) (sortPending s)
  ∧ List.Pairwise (fun a b => schedLe a b = true)
      ((schedulePass h now s (sortPending s)).2) := by
  have hsorted : List.Pairwise (fun a b => schedLe a b = true)
      (sortPending s) :=
    List.sorted_mergeSort schedLe_trans schedLe_total (pendingSnapshot s)
  have hsub := schedulePass_sublist h now (sortPending s) s
  exact ⟨hsorted, hsub, List.Pairwise.sublist hsub hsorted⟩

/-- Claim C7 (amended): starting a PENDING job on its partition and then
transitioning it from RUNNING to a terminal state restores every
partition's `allocated_cpus` and `allocated_gpus` exactly (they are Python
`int` counters, and the model's arithmetic on them is the program's), and
restores `allocated_memory_gb` in the exact-rational idealization of the
float counter; the float program itself does not restore the memory counter
exactly (see `c7_float_memory_not_exactly_restored`). -/
theorem c7_admit_then_terminal_restores_alloc (h : String → Int)
    (s : JobScheduler) (j : Job) (p : Partition) (now now' : Int)
    (ec : Option Int) (ns : JobState)
    (hp : findPartition s j.partition = some p)
    (hpend : j.state = JobState.PENDING)
    (hterm : ns ∈ [JobState.COMPLETED, JobState.FAILED, JobState.TIMEOUT,
      JobState.CANCELLED, JobState.NODE_FAIL]) :
    partsAlloc ((transition_job (start_job h s j p now).1
      (start_job h s j p now).2 ns ec now').1) = partsAlloc s := by
  have hname : p.name = j.partition := findPartition_name hp
  have hfq : ∀ q, (acquireAlloc j q).name = q.name := fun _ => rfl
  have hfind1 : findPartition (start_job h s j p now).1 j.partition =
      some (acquireAlloc j p) := by
    show (updatePartition s.partitions p.name (acquireAlloc j)).find?
        (fun q => decide (q.name = j.partition)) = some (acquireAlloc j p)
    rw [updatePartition_find? _ _ _ _ hfq]
    show (findPartition s j.partition).map _ = _
    rw [hp]
    simp [hname]
  unfold partsAlloc
  rw [tj_partitions]
  have hrel : (releasePartitions (start_job h s j p now).1
      (start_job h s j p now).2).partitions =
      updatePartition ((start_job h s j p now).1.partitions) j.partition
        (releaseAlloc (start_job h s j p now).2) := by
    have hstate : (start_job h s j p now).2.state = JobState.RUNNING := rfl
    have hpart : (start_job h s j p now).2.partition = j.partition := rfl
    simp [releasePartitions, hstate, hfind1, hpart]
  rw [hrel]
  have hsp : (start_job h s j p now).1.partitions =
      updatePartition s.partitions j.partition (acquireAlloc j) := by
    rw [← hname]
    rfl
  rw [hsp]
  rw [updatePartition_same_key _ _ _ _ hfq]
  rw [List.map_map]
  refine List.map_congr_left ?_
  intro q _
  have hres : (start_job h s j p now).2.resources = j.resources := rfl
  by_cases hq : q.name = j.partition
  · simp [Function.comp, hq, releaseAlloc, acquireAlloc, hres]
  · simp [Function.comp, hq]

/-- Witness for C7: admit the concrete PENDING job `c7Job` on `debug` and
complete it; the allocation counters return to the initial values. -/
theorem c7_admit_then_terminal_restores_alloc_witness :
    partsAlloc ((transition_job (start_job (fun _ => 0) initScheduler c7Job
      debugPartition 5).1 (start_job (fun _ => 0) initScheduler c7Job
      debugPartition 5).2 JobState.COMPLETED none 9).1) =
      partsAlloc initScheduler :=
  c7_admit_then_terminal_restores_alloc (fun _ => 0) initScheduler c7Job
    debugPartition 5 9 none JobState.COMPLETED (by decide) (by decide)
    (by decide)

/-- Claim C7 (counterexample): the claim asserts that after admit + terminal
transition the partition's `allocated_memory_gb` equals its value before
the admission, but the source updates that counter with Python float `+=`
and `-=`.  With `0.1` GB allocated (the binary64 value of the literal
`0.1`), admitting a `0.2` GB job and then terminating it leaves the float
counter at `0.1 + 0.2 - 0.2 = 0.10000000000000003 ≠ 0.1` — the exact
rounding steps of the program's own update sequence, evaluated in the
binary64 model; the residual drift is exactly `2 ^ (-55)` GB. -/
theorem c7_float_memory_not_exactly_restored :
    releaseMemF (acquireMemF f64_tenth f64_fifth) f64_fifth =
      ⟨1801439850948199, -54⟩
  ∧ releaseMemF (acquireMemF f64_tenth f64_fifth) f64_fifth ≠ f64_tenth
  ∧ f64sub (releaseMemF (acquireMemF f64_tenth f64_fifth) f64_fifth)
      f64_tenth = ⟨1, -55⟩ := by
  decide

/-- Claim C8: submission validation compares requested resources against the
partition's total capacity: for a submission to an existing partition, it is
rejected exactly when some requested dimension strictly exceeds the
partition total (or the time limit exceeds the partition maximum), and a
request exactly equal to the totals is accepted. -/
theorem c8_validation_uses_total_capacity (s : JobScheduler)
    (sub : JobSubmission) (now : Int) (p : Partition)
    (hp : findPartition s sub.partition = some p) :
    (isErr (submit_job s sub now).2 = true ↔
      (sub.resources.cpus > p.total_cpus ∨ sub.resources.gpus > p.total_gpus ∨
        sub.resources.memory_gb > p.total_memory_gb ∨
        sub.resources.time_limit_minutes > p.max_time_minutes))
  ∧ ((sub.resources.cpus = p.total_cpus ∧ sub.resources.gpus = p.total_gpus ∧
      sub.resources.memory_gb = p.total_memory_gb ∧
      sub.resources.time_limit_minutes ≤ p.max_time_minutes) →
      isErr (submit_job s sub now).2 = false) := by
  have hp' : findPartition { s with job_counter := s.job_counter + 1 }
      sub.partition = some p := hp
  constructor
  · simp only [submit_job, hp']
    split_ifs <;> simp_all [isErr]
  · intro hex
    simp only [submit_job, hp']
    split_ifs <;> simp_all [isErr] <;> omega

/-- Witness for C8 at the exact-capacity submission to `debug` (16 CPUs,
2 GPUs, 128 GB, 30 minutes): accepted. -/
theorem c8_validation_uses_total_capacity_witness :
    (isErr (submit_job initScheduler exactSub 0).2 = true ↔
      (exactSub.resources.cpus > debugPartition.total_cpus ∨
        exactSub.resources.gpus > debugPartition.total_gpus ∨
        exactSub.resources.memory_gb > debugPartition.total_memory_gb ∨
        exactSub.resources.time_limit_minutes >
          debugPartition.max_time_minutes))
  ∧ ((exactSub.resources.cpus = debugPartition.total_cpus ∧
      exactSub.resources.gpus = debugPartition.total_gpus ∧
      exactSub.resources.memory_gb = debugPartition.total_memory_gb ∧
      exactSub.resources.time_limit_minutes ≤
        debugPartition.max_time_minutes) →
      isErr (submit_job initScheduler exactSub 0).2 = false) :=
  c8_validation_uses_total_capacity initScheduler exactSub 0 debugPartition
    (by decide)

/-- Claim C9 (counterexample): the claim states that cancelling a job in any
terminal state — including NODE_FAIL — is a no-op that does not emit
metrics.  The terminal check in `cancel_job` omits NODE_FAIL, so cancelling
a NODE_FAIL job transitions it to CANCELLED and increments
`jobs_cancelled_total`. -/
theorem c9_cancel_node_fail_not_noop :
    (findJob sNF "000001").map (fun j => j.state) = some JobState.NODE_FAIL
  ∧ ((cancel_job sNF "000001" 5).2.map (fun j => j.state)) =
      some JobState.CANCELLED
  ∧ sNF.jobs_cancelled_total = 0
  ∧ (cancel_job sNF "000001" 5).1.jobs_cancelled_total = 1 := by
  decide

/-- Claim C9 (amended): cancelling a job that is already in one of the four
states checked by `cancel_job` — COMPLETED, FAILED, TIMEOUT, CANCELLED (but
not NODE_FAIL) — is a no-op returning the existing record with no metric
emission; from any other state (PENDING, RUNNING, and also the never-assigned
NODE_FAIL) the job is transitioned to CANCELLED and `jobs_cancelled_total`
is incremented. -/
theorem c9_cancel_terminal_guard_amended (s : JobScheduler) (jid : String)
    (now : Int) (job : Job) (hfind : findJob s jid = some job) :
    (job.state ∈ terminalStates → cancel_job s jid now = (s, some job))
  ∧ (job.state ∉ terminalStates →
      ((cancel_job s jid now).2.map (fun j => j.state) =
          some JobState.CANCELLED
        ∧ (cancel_job s jid now).1.jobs_cancelled_total =
            s.jobs_cancelled_total + 1)) := by
  constructor
  · intro hterm
    unfold cancel_job
    rw [hfind]
    simp [hterm]
  · intro hterm
    unfold cancel_job
    rw [hfind]
    simp only [if_neg hterm]
    refine ⟨?_, ?_⟩
    · simp [tj_snd, transitionedJob]
    · simp [tj_cancelled_total]

/-- Witness for the amended C9 theorem at the NODE_FAIL state `sNF`. -/
theorem c9_cancel_terminal_guard_amended_witness :
    (nfJob.state ∈ terminalStates → cancel_job sNF "000001" 5 =
      (sNF, some nfJob))
  ∧ (nfJob.state ∉ terminalStates →
      ((cancel_job sNF "000001" 5).2.map (fun j => j.state) =
          some JobState.CANCELLED
        ∧ (cancel_job sNF "000001" 5).1.jobs_cancelled_total =
            sNF.jobs_cancelled_total + 1)) :=
  c9_cancel_terminal_guard_amended sNF "000001" 5 nfJob (by decide)

/-- Claim C10: for any run hash function and any partition with at least one
node, the node number `N = hash(id) % total_nodes + 1` computed at admission
satisfies `1 ≤ N ≤ total_nodes` — Python's `%` (and Lean's `Int.emod`) is
nonnegative for a positive modulus even when the hash value is negative, so
`node_id` always names an existing node. -/
theorem c10_node_number_in_range (h : String → Int) (jid : String)
    (p : Partition) (hn : 1 ≤ p.total_nodes) :
    1 ≤ node_number h jid p ∧ node_number h jid p ≤ p.total_nodes := by
  unfold node_number
  have h1 := Int.emod_nonneg (h jid)
    (by omega : p.total_nodes ≠ 0)
  have h2 := Int.emod_lt_of_pos (h jid)
    (by omega : (0:Int) < p.total_nodes)
  omega

/-- Witness for C10 with a negative hash value on the `gpu` partition. -/
theorem c10_node_number_in_range_witness :
    1 ≤ node_number (fun _ => -7) "000001" gpuPartition
  ∧ node_number (fun _ => -7) "000001" gpuPartition ≤
      gpuPartition.total_nodes :=
  c10_node_number_in_range (fun _ => -7) "000001" gpuPartition (by decide)

/-! List/job-table helper lemmas for the invariant proof. -/

theorem findJob_mem {s : JobScheduler} {jid : String} {j : Job}
    (h : findJob s jid = some j) : j ∈ s.jobs ∧ j.id = jid :=
  ⟨List.mem_of_find?_eq_some h, by simpa using List.find?_some h⟩

theorem jobs_unique {jobs : List Job}
    (hnd : (jobs.map Job.id).Nodup) {x y : Job}
    (hx : x ∈ jobs) (hy : y ∈ jobs) (hid : x.id = y.id) : x = y := by
  induction jobs with
  | nil => cases hx
  | cons a l ih =>
    simp only [List.map_cons, List.nodup_cons] at hnd
    rcases List.mem_cons.mp hx with rfl | hxl
    · rcases List.mem_cons.mp hy with rfl | hyl
      · rfl
      · exact absurd (List.mem_map.mpr ⟨y, hyl, hid.symm⟩) hnd.1
    · rcases List.mem_cons.mp hy with rfl | hyl
      · exact absurd (List.mem_map.mpr ⟨x, hxl, hid⟩) hnd.1
      · exact ih hnd.2 hxl hyl

theorem find?_id_of_mem {jobs : List Job}
    (hnd : (jobs.map Job.id).Nodup) {j : Job} (hmem : j ∈ jobs) :
    jobs.find? (fun x => decide (x.id = j.id)) = some j := by
  induction jobs with
  | nil => cases hmem
  | cons a l ih =>
    simp only [List.map_cons, List.nodup_cons] at hnd
    rcases List.mem_cons.mp hmem with haj | hl
    · subst haj
      simp [List.find?_cons]
    · rw [List.find?_cons]
      have hne : ¬(a.id = j.id) := by
        intro h
        exact hnd.1 (List.mem_map.mpr ⟨j, hl, h.symm⟩)
      simp only [hne, decide_False]
      exact ih hnd.2 hl

theorem exists_split {jobs : List Job}
    (hnd : (jobs.map Job.id).Nodup) {j : Job} (hmem : j ∈ jobs) :
    ∃ l1 l2, jobs = l1 ++ j :: l2 ∧ (∀ x ∈ l1, x.id ≠ j.id) ∧
      (∀ x ∈ l2, x.id ≠ j.id) := by
  obtain ⟨l1, l2, rfl⟩ := List.append_of_mem hmem
  rw [List.map_append, List.map_cons, List.nodup_middle,
    List.nodup_cons] at hnd
  refine ⟨l1, l2, rfl, ?_, ?_⟩
  · intro x hx hid
    exact hnd.1 (List.mem_append.mpr (Or.inl (List.mem_map.mpr ⟨x, hx, hid⟩)))
  · intro x hx hid
    exact hnd.1 (List.mem_append.mpr (Or.inr (List.mem_map.mpr ⟨x, hx, hid⟩)))

theorem updateJob_split {l1 l2 : List Job} {j j' : Job}
    (hid : j'.id = j.id)
    (h1 : ∀ x ∈ l1, x.id ≠ j.id) (h2 : ∀ x ∈ l2, x.id ≠ j.id) :
    updateJob (l1 ++ j :: l2) j' = l1 ++ j' :: l2 := by
  unfold updateJob
  rw [List.map_append, List.map_cons]
  congr 1
  · refine (List.map_congr_left ?_).trans (List.map_id _)
    intro x hx
    simp [hid, h1 x hx]
  · congr 1
    · simp [hid]
    · refine (List.map_congr_left ?_).trans (List.map_id _)
      intro x hx
      simp [hid, h2 x hx]

theorem loadOn_append {M : Type} [AddCommMonoid M]
    (get : ResourceRequirements → M) (l1 l2 : List Job) (pn : String) :
    loadOn get (l1 ++ l2) pn = loadOn get l1 pn + loadOn get l2 pn := by
  simp [loadOn]

theorem loadOn_cons {M : Type} [AddCommMonoid M]
    (get : ResourceRequirements → M) (x : Job) (l : List Job) (pn : String) :
    loadOn get (x :: l) pn =
      (if x.partition = pn ∧ x.state = JobState.RUNNING then get x.resources
        else 0) + loadOn get l pn := by
  simp [loadOn]

theorem loadOn_replace {M : Type} [AddCommGroup M]
    (get : ResourceRequirements → M) (l1 l2 : List Job) (j j' : Job)
    (pn : String) :
    loadOn get (l1 ++ j' :: l2) pn = loadOn get (l1 ++ j :: l2) pn
      - (if j.partition = pn ∧ j.state = JobState.RUNNING then get j.resources
          else 0)
      + (if j'.partition = pn ∧ j'.state = JobState.RUNNING then
          get j'.resources else 0) := by
  rw [loadOn_append, loadOn_append, loadOn_cons, loadOn_cons]
  abel

theorem loadOn_nonneg {M : Type} [AddCommMonoid M] [PartialOrder M]
    [CovariantClass M M (· + ·) (· ≤ ·)]
    (get : ResourceRequirements → M) (jobs : List Job) (pn : String)
    (hres : ∀ j ∈ jobs, 0 ≤ get j.resources) :
    0 ≤ loadOn get jobs pn := by
  refine List.sum_nonneg ?_
  intro x hx
  obtain ⟨j, hj, rfl⟩ := List.mem_map.mp hx
  split
  · exact hres j hj
  · exact le_refl 0

/-! Bucket lemmas. -/

theorem mem_indexAdd {f : JobState → List String} {st st' : JobState}
    {jid jid' : String} :
    jid' ∈ indexAdd f st jid st' ↔
      jid' ∈ f st' ∨ (st' = st ∧ jid' = jid) := by
  unfold indexAdd
  by_cases hst : st' = st
  · subst hst
    simp only [eq_self_iff_true, if_true, true_and]
    by_cases hmem : jid ∈ f st'
    · rw [if_pos hmem]
      constructor
      · exact fun h => Or.inl h
      · rintro (h | rfl)
        · exact h
        · exact hmem
    · rw [if_neg hmem]
      simp only [List.mem_append, List.mem_singleton]
  · simp [if_neg hst, hst]

theorem mem_indexDiscard {f : JobState → List String} {st st' : JobState}
    {jid jid' : String} (hnd : (f st).Nodup) :
    jid' ∈ indexDiscard f st jid st' ↔
      jid' ∈ f st' ∧ (st' = st → jid' ≠ jid) := by
  unfold indexDiscard
  by_cases hst : st' = st
  · subst hst
    simp only [eq_self_iff_true, if_true]
    constructor
    · intro h
      rw [hnd.mem_erase_iff] at h
      exact ⟨h.2, fun _ => h.1⟩
    · rintro ⟨hmem, hne⟩
      rw [hnd.mem_erase_iff]
      exact ⟨hne trivial, hmem⟩
  · simp [if_neg hst, hst]

theorem indexAdd_nodup {f : JobState → List String} {st : JobState}
    {jid : String} (hnd : ∀ st'', (f st'').Nodup) (st' : JobState) :
    (indexAdd f st jid st').Nodup := by
  unfold indexAdd
  split
  · split
    · exact hnd st
    · refine List.Nodup.append (hnd st) (List.nodup_singleton jid) ?_
      intro x hx hx'
      rw [List.mem_singleton] at hx'
      subst hx'
      exact ‹x ∉ f st› hx
  · exact hnd st'

theorem indexDiscard_nodup {f : JobState → List String} {st : JobState}
    {jid : String} (hnd : ∀ st'', (f st'').Nodup) (st' : JobState) :
    (indexDiscard f st jid st').Nodup := by
  unfold indexDiscard
  split
  · exact (hnd st).erase jid
  · exact hnd st'

theorem updatePartition_names (ps : List Partition) (n : String)
    (f : Partition → Partition) (hf : ∀ q, (f q).name = q.name) :
    (updatePartition ps n f).map Partition.name = ps.map Partition.name := by
  unfold updatePartition
  rw [List.map_map]
  refine List.map_congr_left ?_
  intro p _
  by_cases hp : p.name = n <;> simp [Function.comp, hp, hf]

theorem mem_updatePartition {ps : List Partition} {n : String}
    {f : Partition → Partition} {q : Partition} :
    q ∈ updatePartition ps n f ↔
      ∃ p ∈ ps, q = if p.name = n then f p else p := by
  unfold updatePartition
  rw [List.mem_map]
  constructor
  · rintro ⟨p, hp, rfl⟩
    exact ⟨p, hp, rfl⟩
  · rintro ⟨p, hp, rfl⟩
    exact ⟨p, hp, rfl⟩

/-! Projections of `releasePartitions` and `transition_job`. -/

theorem rp_jobs (s : JobScheduler) (j : Job) :
    (releasePartitions s j).jobs = s.jobs := by
  unfold releasePartitions
  split
  · split <;> rfl
  · rfl

theorem rp_job_counter (s : JobScheduler) (j : Job) :
    (releasePartitions s j).job_counter = s.job_counter := by
  unfold releasePartitions
  split
  · split <;> rfl
  · rfl

theorem rp_jobs_by_state (s : JobScheduler) (j : Job) :
    (releasePartitions s j).jobs_by_state = s.jobs_by_state := by
  unfold releasePartitions
  split
  · split <;> rfl
  · rfl

theorem rp_partitions_running (s : JobScheduler) (j : Job) {p : Partition}
    (hr : j.state = JobState.RUNNING)
    (hfp : findPartition s j.partition = some p) :
    (releasePartitions s j).partitions =
      updatePartition s.partitions j.partition (releaseAlloc j) := by
  unfold releasePartitions
  rw [if_pos hr, hfp]

theorem rp_partitions_id_of_none (s : JobScheduler) (j : Job)
    (hfp : findPartition s j.partition = none) :
    (releasePartitions s j).partitions = s.partitions := by
  unfold releasePartitions
  split
  · rw [hfp]
  · rfl

theorem rp_partitions_id_of_not_running (s : JobScheduler) (j : Job)
    (hr : j.state ≠ JobState.RUNNING) :
    (releasePartitions s j).partitions = s.partitions := by
  unfold releasePartitions
  rw [if_neg hr]

theorem tj_jobs (s : JobScheduler) (j : Job) (ns : JobState)
    (ec : Option Int) (now : Int) :
    (transition_job s j ns ec now).1.jobs =
      updateJob s.jobs (transitionedJob j ns ec now) := by
  unfold transition_job
  split <;> simp [rp_jobs]

theorem tj_job_counter (s : JobScheduler) (j : Job) (ns : JobState)
    (ec : Option Int) (now : Int) :
    (transition_job s j ns ec now).1.job_counter = s.job_counter := by
  unfold transition_job
  split <;> simp [rp_job_counter]

theorem tj_jobs_by_state (s : JobScheduler) (j : Job) (ns : JobState)
    (ec : Option Int) (now : Int) :
    (transition_job s j ns ec now).1.jobs_by_state =
      indexAdd (indexDiscard s.jobs_by_state j.state j.id) ns j.id := by
  unfold transition_job
  split <;> simp [rp_jobs_by_state]

/-! Invariant preservation for `_transition_job`. -/

theorem tj_partitions_cases (s : JobScheduler) (j : Job) (ns : JobState)
    (ec : Option Int) (now : Int) :
    ((transition_job s j ns ec now).1.partitions = s.partitions ∧
      (∀ p ∈ s.partitions,
        ¬(j.partition = p.name ∧ j.state = JobState.RUNNING)))
  ∨ (j.state = JobState.RUNNING ∧
      (transition_job s j ns ec now).1.partitions =
        updatePartition s.partitions j.partition (releaseAlloc j)) := by
  by_cases hr : j.state = JobState.RUNNING
  · cases hfp : findPartition s j.partition with
    | none =>
      left
      constructor
      · rw [tj_partitions, rp_partitions_id_of_none s j hfp]
      · rintro p hp ⟨hpn, -⟩
        have := List.find?_eq_none.mp hfp p hp
        simp only [decide_eq_true_eq] at this
        exact this hpn.symm
    | some p₀ =>
      right
      exact ⟨hr, by rw [tj_partitions, rp_partitions_running s j hr hfp]⟩
  · left
    constructor
    · rw [tj_partitions, rp_partitions_id_of_not_running s j hr]
    · rintro p hp ⟨-, hst⟩
      exact hr hst

theorem tj_alloc_generic {M : Type} [AddCommGroup M]
    (projP : Partition → M) (get : ResourceRequirements → M)
    {s : JobScheduler} {j : Job} {ns : JobState} {ec : Option Int} {now : Int}
    (hproj : ∀ q, projP (releaseAlloc j q) = projP q - get j.resources)
    (hname : ∀ q, (releaseAlloc j q).name = q.name)
    (hload : ∀ pn, loadOn get (transition_job s j ns ec now).1.jobs pn =
      loadOn get s.jobs pn -
        (if j.partition = pn ∧ j.state = JobState.RUNNING then
          get j.resources else 0))
    (Halloc : ∀ p ∈ s.partitions, projP p = loadOn get s.jobs p.name) :
    ∀ p ∈ (transition_job s j ns ec now).1.partitions,
      projP p = loadOn get (transition_job s j ns ec now).1.jobs p.name := by
  rcases tj_partitions_cases s j ns ec now with ⟨heq, hnone⟩ | ⟨hr, heq⟩
  · intro p hp
    rw [heq] at hp
    rw [hload, if_neg (hnone p hp), sub_zero]
    exact Halloc p hp
  · intro p hp
    rw [heq] at hp
    rcases mem_updatePartition.mp hp with ⟨q, hq, rfl⟩
    by_cases hqn : q.name = j.partition
    · rw [if_pos hqn, hname, hproj, hload, if_pos ⟨hqn.symm, hr⟩,
        Halloc q hq]
    · rw [if_neg hqn, hload,
        if_neg (by rintro ⟨hh, -⟩; exact hqn hh.symm), sub_zero]
      exact Halloc q hq

theorem tj_le_generic {M : Type} [LinearOrderedAddCommGroup M]
    (projP projT : Partition → M) (get : ResourceRequirements → M)
    {s : JobScheduler} {j : Job} {ns : JobState} {ec : Option Int} {now : Int}
    (hproj : ∀ q, projP (releaseAlloc j q) = projP q - get j.resources)
    (htot : ∀ q, projT (releaseAlloc j q) = projT q)
    (hres : 0 ≤ get j.resources)
    (Hle : ∀ p ∈ s.partitions, projP p ≤ projT p) :
    ∀ p ∈ (transition_job s j ns ec now).1.partitions, projP p ≤ projT p := by
  rcases tj_partitions_cases s j ns ec now with ⟨heq, -⟩ | ⟨-, heq⟩
  · intro p hp
    rw [heq] at hp
    exact Hle p hp
  · intro p hp
    rw [heq] at hp
    rcases mem_updatePartition.mp hp with ⟨q, hq, rfl⟩
    by_cases hqn : q.name = j.partition
    · rw [if_pos hqn, hproj, htot]
      exact le_trans (sub_le_self _ hres) (Hle q hq)
    · rw [if_neg hqn]
      exact Hle q hq

theorem tj_pnames {s : JobScheduler} {j : Job} {ns : JobState}
    {ec : Option Int} {now : Int}
    (H : (s.partitions.map Partition.name).Nodup) :
    (((transition_job s j ns ec now).1.partitions).map Partition.name).Nodup
    := by
  rcases tj_partitions_cases s j ns ec now with ⟨heq, -⟩ | ⟨-, heq⟩ <;>
    rw [heq]
  · exact H
  · rw [updatePartition_names s.partitions j.partition (releaseAlloc j)
      (fun q => rfl)]
    exact H

theorem transition_job_inv (s : JobScheduler) (j : Job) (ns : JobState)
    (ec : Option Int) (now : Int) (H : Inv s)
    (hj : findJob s j.id = some j) (hns : ns ≠ JobState.RUNNING) :
    Inv (transition_job s j ns ec now).1 := by
  obtain ⟨hmem, -⟩ := findJob_mem hj
  obtain ⟨l1, l2, hsplit, hl1, hl2⟩ := exists_split H.ids_nodup hmem
  have hid : (transitionedJob j ns ec now).id = j.id := rfl
  have hjobs : (transition_job s j ns ec now).1.jobs =
      l1 ++ transitionedJob j ns ec now :: l2 := by
    rw [tj_jobs, hsplit]
    exact updateJob_split hid hl1 hl2
  have hmem' : ∀ x ∈ (transition_job s j ns ec now).1.jobs,
      x ∈ s.jobs ∨ x = transitionedJob j ns ec now := by
    intro x hx
    rw [hjobs] at hx
    rcases List.mem_append.mp hx with hx1 | hx2
    · exact Or.inl (hsplit ▸ List.mem_append.mpr (Or.inl hx1))
    · rcases List.mem_cons.mp hx2 with rfl | hx3
      · exact Or.inr rfl
      · exact Or.inl (hsplit ▸ List.mem_append.mpr
          (Or.inr (List.mem_cons_of_mem _ hx3)))
  have hload : ∀ {M : Type} [AddCommGroup M]
      (get : ResourceRequirements → M) (pn : String),
      loadOn get (transition_job s j ns ec now).1.jobs pn =
        loadOn get s.jobs pn -
          (if j.partition = pn ∧ j.state = JobState.RUNNING then
            get j.resources else 0) := by
    intro M _ get pn
    rw [hjobs, hsplit, loadOn_replace get l1 l2 j _ pn]
    have hz : (if (transitionedJob j ns ec now).partition = pn ∧
        (transitionedJob j ns ec now).state = JobState.RUNNING then
        get (transitionedJob j ns ec now).resources else 0) = 0 := by
      rw [if_neg]
      rintro ⟨-, hst⟩
      exact hns (by simpa [transitionedJob] using hst)
    rw [hz]
    abel
  have hres0 := H.res_nonneg j hmem
  refine ⟨?_, ?_, ?_, ?_, ?_, ?_, ?_, ?_, ?_, ?_, ?_, ?_⟩
  · exact tj_pnames H.pnames
  · exact tj_alloc_generic (fun p => p.allocated_cpus) (fun r => r.cpus)
      (fun q => rfl) (fun q => rfl) (fun pn => hload _ pn) H.alloc_cpus
  · exact tj_alloc_generic (fun p => p.allocated_gpus) (fun r => r.gpus)
      (fun q => rfl) (fun q => rfl) (fun pn => hload _ pn) H.alloc_gpus
  · exact tj_alloc_generic (fun p => p.allocated_memory_gb)
      (fun r => r.memory_gb) (fun q => rfl) (fun q => rfl)
      (fun pn => hload _ pn) H.alloc_mem
  · exact tj_le_generic (fun p => p.allocated_cpus) (fun p => p.total_cpus)
      (fun r => r.cpus) (fun q => rfl) (fun q => rfl) hres0.1 H.le_total_cpus
  · exact tj_le_generic (fun p => p.allocated_gpus) (fun p => p.total_gpus)
      (fun r => r.gpus) (fun q => rfl) (fun q => rfl) hres0.2.1
      H.le_total_gpus
  · exact tj_le_generic (fun p => p.allocated_memory_gb)
      (fun p => p.total_memory_gb) (fun r => r.memory_gb) (fun q => rfl)
      (fun q => rfl) hres0.2.2 H.le_total_mem
  · intro x hx
    rcases hmem' x hx with hxs | rfl
    · exact H.res_nonneg x hxs
    · exact hres0
  · have : ((transition_job s j ns ec now).1.jobs).map Job.id =
        s.jobs.map Job.id := by
      rw [hjobs, hsplit]
      simp [hid]
    rw [this]
    exact H.ids_nodup
  · intro x hx
    rw [tj_job_counter]
    rcases hmem' x hx with hxs | rfl
    · exact H.ids_bounded x hxs
    · exact hid ▸ H.ids_bounded j hmem
  · intro st jid hjid
    rw [tj_jobs_by_state] at hjid
    rcases mem_indexAdd.mp hjid with hdisc | ⟨hst, hjid'⟩
    · rw [mem_indexDiscard (H.buckets_nodup j.state)] at hdisc
      obtain ⟨x, hxs, hxid, hxst⟩ := H.buckets st jid hdisc.1
      by_cases hxj : x.id = j.id
      · exfalso
        have hxeq : x = j := jobs_unique H.ids_nodup hxs hmem hxj
        exact hdisc.2 (by rw [← hxst, hxeq]) (by rw [← hxid, hxj])
      · refine ⟨x, ?_, hxid, hxst⟩
        rw [hjobs]
        rw [hsplit] at hxs
        rcases List.mem_append.mp hxs with hx1 | hx2
        · exact List.mem_append.mpr (Or.inl hx1)
        · rcases List.mem_cons.mp hx2 with rfl | hx3
          · exact absurd rfl hxj
          · exact List.mem_append.mpr (Or.inr (List.mem_cons_of_mem _ hx3))
    · subst hst
      subst hjid'
      refine ⟨transitionedJob j _ ec now, ?_, rfl, rfl⟩
      rw [hjobs]
      exact List.mem_append.mpr (Or.inr (List.mem_cons_self _ _))
  · intro st
    rw [tj_jobs_by_state]
    exact indexAdd_nodup (fun st'' => indexDiscard_nodup H.buckets_nodup st'')
      st

/-! Invariant preservation for `_start_job`. -/

theorem partitions_unique {ps : List Partition}
    (hnd : (ps.map Partition.name).Nodup) {x y : Partition}
    (hx : x ∈ ps) (hy : y ∈ ps) (hname : x.name = y.name) : x = y := by
  induction ps with
  | nil => cases hx
  | cons a l ih =>
    simp only [List.map_cons, List.nodup_cons] at hnd
    rcases List.mem_cons.mp hx with rfl | hxl
    · rcases List.mem_cons.mp hy with rfl | hyl
      · rfl
      · exact absurd (List.mem_map.mpr ⟨y, hyl, hname.symm⟩) hnd.1
    · rcases List.mem_cons.mp hy with rfl | hyl
      · exact absurd (List.mem_map.mpr ⟨x, hxl, hname⟩) hnd.1
      · exact ih hnd.2 hxl hyl

theorem can_schedule_bounds {j : Job} {p : Partition}
    (hcan : can_schedule j p = true) :
    j.resources.cpus ≤ p.idle_cpus ∧ j.resources.gpus ≤ p.idle_gpus ∧
      j.resources.memory_gb ≤ p.idle_memory_gb := by
  unfold can_schedule at hcan
  split_ifs at hcan with h1 h2 h3
  exact ⟨not_lt.mp h1, not_lt.mp h2, not_lt.mp h3⟩

theorem start_job_inv (h : String → Int) (s : JobScheduler) (j : Job)
    (p : Partition) (now : Int) (H : Inv s)
    (hj : findJob s j.id = some j) (hpend : j.state = JobState.PENDING)
    (hp : findPartition s j.partition = some p)
    (hcan : can_schedule j p = true) :
    Inv (start_job h s j p now).1 := by
  obtain ⟨hmem, -⟩ := findJob_mem hj
  have hpmem : p ∈ s.partitions := List.mem_of_find?_eq_some hp
  have hpname : p.name = j.partition := findPartition_name hp
  obtain ⟨l1, l2, hsplit, hl1, hl2⟩ := exists_split H.ids_nodup hmem
  set j' := (start_job h s j p now).2 with hj'def
  have hid : j'.id = j.id := rfl
  have hjobs : (start_job h s j p now).1.jobs = l1 ++ j' :: l2 := by
    show updateJob s.jobs j' = l1 ++ j' :: l2
    rw [hsplit]
    exact updateJob_split hid hl1 hl2
  have hparts : (start_job h s j p now).1.partitions =
      updatePartition s.partitions j.partition (acquireAlloc j) := by
    rw [← hpname]
    rfl
  have hbys : (start_job h s j p now).1.jobs_by_state =
      indexAdd (indexDiscard s.jobs_by_state JobState.PENDING j.id)
        JobState.RUNNING j.id := rfl
  have hcounter : (start_job h s j p now).1.job_counter = s.job_counter := rfl
  have hmem' : ∀ x ∈ (start_job h s j p now).1.jobs,
      x ∈ s.jobs ∨ x = j' := by
    intro x hx
    rw [hjobs] at hx
    rcases List.mem_append.mp hx with hx1 | hx2
    · exact Or.inl (hsplit ▸ List.mem_append.mpr (Or.inl hx1))
    · rcases List.mem_cons.mp hx2 with rfl | hx3
      · exact Or.inr rfl
      · exact Or.inl (hsplit ▸ List.mem_append.mpr
          (Or.inr (List.mem_cons_of_mem _ hx3)))
  have hload : ∀ {M : Type} [AddCommGroup M]
      (get : ResourceRequirements → M) (pn : String),
      loadOn get (start_job h s j p now).1.jobs pn =
        loadOn get s.jobs pn +
          (if j.partition = pn then get j.resources else 0) := by
    intro M _ get pn
    rw [hjobs, hsplit, loadOn_replace get l1 l2 j _ pn]
    have hz : (if j.partition = pn ∧ j.state = JobState.RUNNING then
        get j.resources else 0) = 0 := by
      rw [if_neg]
      rintro ⟨-, hst⟩
      rw [hpend] at hst
      cases hst
    have hz' : (if j'.partition = pn ∧ j'.state = JobState.RUNNING then
        get j'.resources else 0) =
        (if j.partition = pn then get j.resources else 0) := by
      have h1 : j'.partition = j.partition := rfl
      have h2 : j'.state = JobState.RUNNING := rfl
      have h3 : j'.resources = j.resources := rfl
      rw [h1, h2, h3]
      by_cases hpn : j.partition = pn
      · rw [if_pos ⟨hpn, rfl⟩, if_pos hpn]
      · rw [if_neg (by rintro ⟨hh, -⟩; exact hpn hh), if_neg hpn]
    rw [hz, hz']
    abel
  have halloc : ∀ {M : Type} [AddCommGroup M]
      (projP : Partition → M) (get : ResourceRequirements → M),
      (∀ q, projP (acquireAlloc j q) = projP q + get j.resources) →
      (∀ q ∈ s.partitions, projP q = loadOn get s.jobs q.name) →
      ∀ q ∈ (start_job h s j p now).1.partitions,
        projP q = loadOn get (start_job h s j p now).1.jobs q.name := by
    intro M _ projP get hproj Halloc q' hq'
    rw [hparts] at hq'
    rcases mem_updatePartition.mp hq' with ⟨q, hq, rfl⟩
    by_cases hqn : q.name = j.partition
    · rw [if_pos hqn, hproj]
      have hname : (acquireAlloc j q).name = q.name := rfl
      rw [hname, hload, if_pos hqn.symm, Halloc q hq]
    · rw [if_neg hqn, hload,
        if_neg (fun hh => hqn hh.symm), add_zero]
      exact Halloc q hq
  have hle : ∀ {M : Type} [LinearOrderedAddCommGroup M]
      (projP projT : Partition → M) (get : ResourceRequirements → M),
      (∀ q, projP (acquireAlloc j q) = projP q + get j.resources) →
      (∀ q, projT (acquireAlloc j q) = projT q) →
      get j.resources ≤ projT p - projP p →
      (∀ q ∈ s.partitions, projP q ≤ projT q) →
      ∀ q ∈ (start_job h s j p now).1.partitions, projP q ≤ projT q := by
    intro M _ projP projT get hproj htot hbound Hle q' hq'
    rw [hparts] at hq'
    rcases mem_updatePartition.mp hq' with ⟨q, hq, rfl⟩
    by_cases hqn : q.name = j.partition
    · have hqp : q = p := partitions_unique H.pnames hq hpmem
        (by rw [hqn, hpname])
      subst hqp
      rw [if_pos hqn, hproj, htot]
      calc projP q + get j.resources ≤ projP q + (projT q - projP q) :=
            add_le_add_left hbound _
        _ = projT q := by abel
    · rw [if_neg hqn]
      exact Hle q hq
  refine ⟨?_, ?_, ?_, ?_, ?_, ?_, ?_, ?_, ?_, ?_, ?_, ?_⟩
  · rw [hparts, updatePartition_names s.partitions j.partition
      (acquireAlloc j) (fun q => rfl)]
    exact H.pnames
  · exact halloc (fun p => p.allocated_cpus) (fun r => r.cpus)
      (fun q => rfl) H.alloc_cpus
  · exact halloc (fun p => p.allocated_gpus) (fun r => r.gpus)
      (fun q => rfl) H.alloc_gpus
  · exact halloc (fun p => p.allocated_memory_gb) (fun r => r.memory_gb)
      (fun q => rfl) H.alloc_mem
  · exact hle (fun p => p.allocated_cpus) (fun p => p.total_cpus)
      (fun r => r.cpus) (fun q => rfl) (fun q => rfl)
      (can_schedule_bounds hcan).1 H.le_total_cpus
  · exact hle (fun p => p.allocated_gpus) (fun p => p.total_gpus)
      (fun r => r.gpus) (fun q => rfl) (fun q => rfl)
      (can_schedule_bounds hcan).2.1 H.le_total_gpus
  · exact hle (fun p => p.allocated_memory_gb) (fun p => p.total_memory_gb)
      (fun r => r.memory_gb) (fun q => rfl) (fun q => rfl)
      (can_schedule_bounds hcan).2.2 H.le_total_mem
  · intro x hx
    rcases hmem' x hx with hxs | rfl
    · exact H.res_nonneg x hxs
    · have hres : j'.resources = j.resources := rfl
      rw [hres]
      exact H.res_nonneg j hmem
  · have hids : ((start_job h s j p now).1.jobs).map Job.id =
        s.jobs.map Job.id := by
      rw [hjobs, hsplit]
      simp [hid]
    rw [hids]
    exact H.ids_nodup
  · intro x hx
    rw [hcounter]
    rcases hmem' x hx with hxs | rfl
    · exact H.ids_bounded x hxs
    · show decodeId j'.id ≤ s.job_counter
      rw [hid]
      exact H.ids_bounded j hmem
  · intro st jid hjid
    rw [hbys] at hjid
    rcases mem_indexAdd.mp hjid with hdisc | ⟨hst, hjid'⟩
    · rw [mem_indexDiscard (H.buckets_nodup JobState.PENDING)] at hdisc
      obtain ⟨x, hxs, hxid, hxst⟩ := H.buckets st jid hdisc.1
      by_cases hxj : x.id = j.id
      · exfalso
        have hxeq : x = j := jobs_unique H.ids_nodup hxs hmem hxj
        exact hdisc.2 (by rw [← hxst, hxeq, hpend]) (by rw [← hxid, hxj])
      · refine ⟨x, ?_, hxid, hxst⟩
        rw [hjobs]
        rw [hsplit] at hxs
        rcases List.mem_append.mp hxs with hx1 | hx2
        · exact List.mem_append.mpr (Or.inl hx1)
        · rcases List.mem_cons.mp hx2 with rfl | hx3
          · exact absurd rfl hxj
          · exact List.mem_append.mpr (Or.inr (List.mem_cons_of_mem _ hx3))
    · subst hst
      subst hjid'
      refine ⟨j', ?_, rfl, rfl⟩
      rw [hjobs]
      exact List.mem_append.mpr (Or.inr (List.mem_cons_self _ _))
  · intro st
    rw [hbys]
    exact indexAdd_nodup (fun st'' => indexDiscard_nodup H.buckets_nodup st'')
      st

/-! Invariant preservation for `submit_job` and `cancel_job`. -/

theorem Inv_of_fields (s t : JobScheduler) (H : Inv s)
    (h1 : t.jobs = s.jobs) (h2 : t.partitions = s.partitions)
    (h3 : t.job_counter = s.job_counter)
    (h4 : t.jobs_by_state = s.jobs_by_state) : Inv t := by
  refine ⟨?_, ?_, ?_, ?_, ?_, ?_, ?_, ?_, ?_, ?_, ?_, ?_⟩
  · rw [h2]; exact H.pnames
  · intro p hp; rw [h2] at hp; rw [h1]; exact H.alloc_cpus p hp
  · intro p hp; rw [h2] at hp; rw [h1]; exact H.alloc_gpus p hp
  · intro p hp; rw [h2] at hp; rw [h1]; exact H.alloc_mem p hp
  · intro p hp; rw [h2] at hp; exact H.le_total_cpus p hp
  · intro p hp; rw [h2] at hp; exact H.le_total_gpus p hp
  · intro p hp; rw [h2] at hp; exact H.le_total_mem p hp
  · intro x hx; rw [h1] at hx; exact H.res_nonneg x hx
  · rw [h1]; exact H.ids_nodup
  · intro x hx; rw [h1] at hx; rw [h3]; exact H.ids_bounded x hx
  · intro st jid hjid; rw [h4] at hjid; rw [h1]
    exact H.buckets st jid hjid
  · intro st; rw [h4]; exact H.buckets_nodup st

theorem Inv_counter_bump {s : JobScheduler} (H : Inv s) :
    Inv { s with job_counter := s.job_counter + 1 } := by
  refine ⟨H.pnames, H.alloc_cpus, H.alloc_gpus, H.alloc_mem, H.le_total_cpus,
    H.le_total_gpus, H.le_total_mem, H.res_nonneg, H.ids_nodup, ?_,
    H.buckets, H.buckets_nodup⟩
  intro x hx
  exact le_trans (H.ids_bounded x hx) (Nat.le_succ _)

theorem loadOn_nil {M : Type} [AddCommMonoid M]
    (get : ResourceRequirements → M) (pn : String) :
    loadOn get [] pn = 0 := rfl

theorem submit_success_core (s : JobScheduler) (job : Job) (H : Inv s)
    (hjid : job.id = fmt6 (s.job_counter + 1))
    (hstate : job.state = JobState.PENDING)
    (hres : 0 ≤ job.resources.cpus ∧ 0 ≤ job.resources.gpus ∧
      0 ≤ job.resources.memory_gb)
    (t : JobScheduler)
    (htjobs : t.jobs = dictInsert s.jobs job)
    (htparts : t.partitions = updatePartition s.partitions job.partition
      (fun p => { p with jobs_pending := p.jobs_pending + 1 }))
    (htcounter : t.job_counter = s.job_counter + 1)
    (htbys : t.jobs_by_state =
      indexAdd s.jobs_by_state JobState.PENDING job.id) : Inv t := by
  have hfresh : ∀ x ∈ s.jobs, x.id ≠ job.id := by
    intro x hx
    rw [hjid]
    exact fmt6_fresh s.job_counter x.id (H.ids_bounded x hx)
  have hins : dictInsert s.jobs job = s.jobs ++ [job] := by
    unfold dictInsert
    rw [if_neg]
    intro hany
    obtain ⟨x, hx, hpx⟩ := List.any_eq_true.mp hany
    exact hfresh x hx (by simpa using hpx)
  have hjobs' : t.jobs = s.jobs ++ [job] := by rw [htjobs, hins]
  have hmem' : ∀ x ∈ t.jobs, x ∈ s.jobs ∨ x = job := by
    intro x hx
    rw [hjobs'] at hx
    rcases List.mem_append.mp hx with hx1 | hx2
    · exact Or.inl hx1
    · exact Or.inr (List.mem_singleton.mp hx2)
  have hload : ∀ {M : Type} [AddCommGroup M]
      (get : ResourceRequirements → M) (pn : String),
      loadOn get t.jobs pn = loadOn get s.jobs pn := by
    intro M _ get pn
    rw [hjobs', loadOn_append, loadOn_cons, loadOn_nil]
    rw [if_neg (by rintro ⟨-, hst⟩; rw [hstate] at hst; cases hst)]
    abel
  have halloc : ∀ {M : Type} [AddCommGroup M]
      (projP : Partition → M) (get : ResourceRequirements → M),
      (∀ q, projP { q with jobs_pending := q.jobs_pending + 1 } = projP q) →
      (∀ q ∈ s.partitions, projP q = loadOn get s.jobs q.name) →
      ∀ q ∈ t.partitions, projP q = loadOn get t.jobs q.name := by
    intro M _ projP get hproj Halloc q' hq'
    rw [htparts] at hq'
    rcases mem_updatePartition.mp hq' with ⟨q, hq, rfl⟩
    by_cases hqn : q.name = job.partition
    · rw [if_pos hqn, hproj, hload]
      exact Halloc q hq
    · rw [if_neg hqn, hload]
      exact Halloc q hq
  have hle : ∀ {M : Type} [LinearOrderedAddCommGroup M]
      (projP projT : Partition → M),
      (∀ q, projP { q with jobs_pending := q.jobs_pending + 1 } = projP q) →
      (∀ q, projT { q with jobs_pending := q.jobs_pending + 1 } = projT q) →
      (∀ q ∈ s.partitions, projP q ≤ projT q) →
      ∀ q ∈ t.partitions, projP q ≤ projT q := by
    intro M _ projP projT hproj htot Hle q' hq'
    rw [htparts] at hq'
    rcases mem_updatePartition.mp hq' with ⟨q, hq, rfl⟩
    by_cases hqn : q.name = job.partition
    · rw [if_pos hqn, hproj, htot]
      exact Hle q hq
    · rw [if_neg hqn]
      exact Hle q hq
  refine ⟨?_, ?_, ?_, ?_, ?_, ?_, ?_, ?_, ?_, ?_, ?_, ?_⟩
  · rw [htparts, updatePartition_names s.partitions job.partition
      (fun p => { p with jobs_pending := p.jobs_pending + 1 })
      (fun q => rfl)]
    exact H.pnames
  · exact halloc (fun p => p.allocated_cpus) (fun r => r.cpus)
      (fun q => rfl) H.alloc_cpus
  · exact halloc (fun p => p.allocated_gpus) (fun r => r.gpus)
      (fun q => rfl) H.alloc_gpus
  · exact halloc (fun p => p.allocated_memory_gb) (fun r => r.memory_gb)
      (fun q => rfl) H.alloc_mem
  · exact hle (fun p => p.allocated_cpus) (fun p => p.total_cpus)
      (fun q => rfl) (fun q => rfl) H.le_total_cpus
  · exact hle (fun p => p.allocated_gpus) (fun p => p.total_gpus)
      (fun q => rfl) (fun q => rfl) H.le_total_gpus
  · exact hle (fun p => p.allocated_memory_gb) (fun p => p.total_memory_gb)
      (fun q => rfl) (fun q => rfl) H.le_total_mem
  · intro x hx
    rcases hmem' x hx with hxs | rfl
    · exact H.res_nonneg x hxs
    · exact hres
  · rw [hjobs', List.map_append, List.map_singleton]
    rw [List.nodup_append]
    refine ⟨H.ids_nodup, List.nodup_singleton _, ?_⟩
    intro a ha hb
    rw [List.mem_singleton] at hb
    obtain ⟨x, hx, rfl⟩ := List.mem_map.mp ha
    exact hfresh x hx (hb)
  · intro x hx
    rw [htcounter]
    rcases hmem' x hx with hxs | rfl
    · exact le_trans (H.ids_bounded x hxs) (Nat.le_succ _)
    · rw [hjid, decodeId_fmt6]
  · intro st jid hjid'
    rw [htbys] at hjid'
    rcases mem_indexAdd.mp hjid' with hold | ⟨hst, hjid''⟩
    · obtain ⟨x, hxs, hxid, hxst⟩ := H.buckets st jid hold
      refine ⟨x, ?_, hxid, hxst⟩
      rw [hjobs']
      exact List.mem_append.mpr (Or.inl hxs)
    · subst hst
      subst hjid''
      refine ⟨job, ?_, rfl, hstate⟩
      rw [hjobs']
      exact List.mem_append.mpr (Or.inr (List.mem_singleton.mpr rfl))
  · intro st
    rw [htbys]
    exact indexAdd_nodup H.buckets_nodup st

theorem submit_job_inv (s : JobScheduler) (sub : JobSubmission) (now : Int)
    (H : Inv s) (hv : ValidResources sub.resources) :
    Inv (submit_job s sub now).1 := by
  have hres : 0 ≤ sub.resources.cpus ∧ 0 ≤ sub.resources.gpus ∧
      0 ≤ sub.resources.memory_gb := by
    obtain ⟨h1, -, h3, -, h5, -⟩ := hv
    refine ⟨le_trans zero_le_one h1, h3, le_trans (by norm_num) h5⟩
  cases hfp : findPartition { s with job_counter := s.job_counter + 1 }
      sub.partition with
  | none =>
    simp only [submit_job, hfp]
    exact Inv_counter_bump H
  | some partition =>
    simp only [submit_job, hfp]
    split_ifs
    · exact Inv_counter_bump H
    · exact Inv_counter_bump H
    · exact Inv_counter_bump H
    · exact Inv_counter_bump H
    · refine submit_success_core s
        { id := fmt6 (s.job_counter + 1), name := sub.name,
          partition := sub.partition, priority := sub.priority,
          priority_value := PRIORITY_VALUES sub.priority,
          resources := sub.resources, command := sub.command,
          account := sub.account, user := sub.user,
          state := JobState.PENDING, exit_code := none, node_id := none,
          submit_time := now, start_time := none, end_time := none }
        H rfl rfl hres _ ?_ ?_ ?_ ?_
      · cases sub.account with
        | none => rfl
        | some acct =>
          by_cases ha : acct = "" <;> simp [ha]
      · cases sub.account with
        | none => rfl
        | some acct =>
          by_cases ha : acct = "" <;> simp [ha]
      · cases sub.account with
        | none => rfl
        | some acct =>
          by_cases ha : acct = "" <;> simp [ha]
      · cases sub.account with
        | none => rfl
        | some acct =>
          by_cases ha : acct = "" <;> simp [ha]

theorem cancel_job_inv (s : JobScheduler) (jid : String) (now : Int)
    (H : Inv s) : Inv (cancel_job s jid now).1 := by
  unfold cancel_job
  cases hj : findJob s jid with
  | none => exact H
  | some job =>
    simp only
    split_ifs with hterm
    · exact H
    · have hj' : findJob s job.id = some job := by
        rw [(findJob_mem hj).2]
        exact hj
      exact Inv_of_fields _ _
        (transition_job_inv s job JobState.CANCELLED none now H hj'
          (by simp)) rfl rfl rfl rfl

/-! Invariant preservation for the scheduling cycle. -/

theorem check_running_jobs_inv (rolls : String → ℚ × ℚ) (s : JobScheduler)
    (now : Int) (H : Inv s) : Inv (check_running_jobs rolls s now) := by
  unfold check_running_jobs
  generalize s.jobs_by_state JobState.RUNNING = ids
  induction ids generalizing s with
  | nil => exact H
  | cons jid rest ih =>
    rw [List.foldl_cons]
    apply ih
    cases hj : findJob s jid with
    | none => simpa only [hj] using H
    | some job =>
      simp only [hj]
      cases hst : job.start_time with
      | none => exact H
      | some st0 =>
        simp only [hst]
        have hj' : findJob s job.id = some job := by
          rw [(findJob_mem hj).2]
          exact hj
        split_ifs
        · exact Inv_of_fields _ _
            (transition_job_inv s job JobState.TIMEOUT none now H hj'
              (by simp)) rfl rfl rfl rfl
        · exact Inv_of_fields _ _
            (transition_job_inv s job JobState.COMPLETED none now H hj'
              (by simp)) rfl rfl rfl rfl
        · exact Inv_of_fields _ _
            (transition_job_inv s job JobState.FAILED (some 1) now H hj'
              (by simp)) rfl rfl rfl rfl
        · exact H
        · exact H

theorem find?_updateJob_ne (jobs : List Job) (j' : Job) (jid : String)
    (hne : jid ≠ j'.id) :
    (updateJob jobs j').find? (fun x => decide (x.id = jid)) =
      jobs.find? (fun x => decide (x.id = jid)) := by
  induction jobs with
  | nil => rfl
  | cons a l ih =>
    show ((if a.id = j'.id then j' else a) :: updateJob l j').find? _ = _
    rw [List.find?_cons, List.find?_cons]
    by_cases ha : a.id = j'.id
    · rw [if_pos ha]
      have h1 : ¬(j'.id = jid) := fun h => hne h.symm
      have h2 : ¬(a.id = jid) := by rw [ha]; exact h1
      simp only [h1, h2, decide_False]
      exact ih
    · rw [if_neg ha]
      cases hd : decide (a.id = jid) with
      | true => rfl
      | false => exact ih

theorem schedulePass_inv (h : String → Int) (now : Int) :
    ∀ (l : List Job) (s : JobScheduler), Inv s →
      (∀ j ∈ l, findJob s j.id = some j ∧ j.state = JobState.PENDING) →
      ((l.map Job.id).Nodup) → Inv (schedulePass h now s l).1 := by
  intro l
  induction l with
  | nil =>
    intro s H _ _
    exact H
  | cons job rest ih =>
    intro s H hjobs hnd
    simp only [List.map_cons, List.nodup_cons] at hnd
    have hjhead := hjobs job (List.mem_cons_self _ _)
    have hjrest : ∀ j ∈ rest, findJob s j.id = some j ∧
        j.state = JobState.PENDING :=
      fun j hj => hjobs j (List.mem_cons_of_mem _ hj)
    simp only [schedulePass]
    split
    · exact ih s H hjrest hnd.2
    · next partition hfp =>
      split_ifs with hup hcan
      · show Inv (schedulePass h now (start_job h s job partition now).1
          rest).1
        have hpfind : findPartition s job.partition = some partition := hfp
        have HS : Inv (start_job h s job partition now).1 :=
          start_job_inv h s job partition now H hjhead.1 hjhead.2 hpfind hcan
        apply ih _ HS _ hnd.2
        intro x hx
        have hxne : x.id ≠ job.id := by
          intro heq
          exact hnd.1 (List.mem_map.mpr ⟨x, hx, heq⟩)
        have hfind : findJob (start_job h s job partition now).1 x.id =
            findJob s x.id := by
          show (updateJob s.jobs (start_job h s job partition now).2).find? _
            = _
          exact find?_updateJob_ne s.jobs _ x.id hxne
        rw [hfind]
        exact hjrest x hx
      · exact ih s H hjrest hnd.2
      · exact ih s H hjrest hnd.2

theorem filterMap_findJob_nodup (s : JobScheduler) (ids : List String)
    (hnd : ids.Nodup) :
    ((ids.filterMap (findJob s)).map Job.id).Nodup := by
  induction ids with
  | nil => simp
  | cons a l ih =>
    rw [List.nodup_cons] at hnd
    rw [List.filterMap_cons]
    cases hf : findJob s a with
    | none => exact ih hnd.2
    | some j =>
      simp only [List.map_cons, List.nodup_cons]
      refine ⟨?_, ih hnd.2⟩
      intro hmem
      obtain ⟨x, hx, hxid⟩ := List.mem_map.mp hmem
      obtain ⟨b, hb, hfb⟩ := List.mem_filterMap.mp hx
      have h1 : x.id = b := (findJob_mem hfb).2
      have h2 : j.id = a := (findJob_mem hf).2
      apply hnd.1
      have hab : a = b := by rw [← h2, ← hxid, h1]
      rw [hab]
      exact hb

theorem pendingSnapshot_props (s : JobScheduler) (H : Inv s) :
    (∀ j ∈ pendingSnapshot s,
      findJob s j.id = some j ∧ j.state = JobState.PENDING) ∧
    ((pendingSnapshot s).map Job.id).Nodup := by
  constructor
  · intro j hj
    obtain ⟨jid, hjid, hfind⟩ := List.mem_filterMap.mp hj
    obtain ⟨hjmem, hjeq⟩ := findJob_mem hfind
    obtain ⟨x, hxs, hxid, hxst⟩ := H.buckets JobState.PENDING jid hjid
    have hxj : x = j := jobs_unique H.ids_nodup hxs hjmem (by rw [hxid, hjeq])
    refine ⟨?_, by rw [← hxj]; exact hxst⟩
    rw [hjeq]
    exact hfind
  · exact filterMap_findJob_nodup s _ (H.buckets_nodup JobState.PENDING)

theorem sortPending_props (s : JobScheduler) (H : Inv s) :
    (∀ j ∈ sortPending s,
      findJob s j.id = some j ∧ j.state = JobState.PENDING) ∧
    ((sortPending s).map Job.id).Nodup := by
  have hperm : (sortPending s).Perm (pendingSnapshot s) :=
    List.mergeSort_perm (pendingSnapshot s) schedLe
  obtain ⟨h1, h2⟩ := pendingSnapshot_props s H
  constructor
  · intro j hj
    exact h1 j (hperm.mem_iff.mp hj)
  · exact ((hperm.map Job.id).nodup_iff).mpr h2

theorem schedule_pending_jobs_inv (h : String → Int) (s : JobScheduler)
    (now : Int) (H : Inv s) : Inv (schedule_pending_jobs h s now) := by
  obtain ⟨h1, h2⟩ := sortPending_props s H
  exact schedulePass_inv h now (sortPending s) s H h1 h2

theorem schedule_cycle_inv (h : String → Int) (rolls : String → ℚ × ℚ)
    (s : JobScheduler) (now : Int) (H : Inv s) :
    Inv (schedule_cycle h rolls s now) :=
  schedule_pending_jobs_inv h _ now (check_running_jobs_inv rolls s now H)

theorem init_inv : Inv initScheduler := by
  refine ⟨?_, ?_, ?_, ?_, ?_, ?_, ?_, ?_, ?_, ?_, ?_, ?_⟩
  · decide
  · intro p hp; fin_cases hp <;> rfl
  · intro p hp; fin_cases hp <;> rfl
  · intro p hp; fin_cases hp <;> rfl
  · intro p hp; fin_cases hp <;> decide
  · intro p hp; fin_cases hp <;> decide
  · intro p hp; fin_cases hp <;> decide
  · intro x hx; cases hx
  · exact List.nodup_nil
  · intro x hx; cases hx
  · intro st jid hjid; cases hjid
  · intro st; exact List.nodup_nil

theorem applyOp_inv (h : String → Int) (s : JobScheduler) (op : Op)
    (H : Inv s) (hv : OpValid op) : Inv (applyOp h s op) := by
  cases op with
  | submit sub now => exact submit_job_inv s sub now H hv
  | cancel jid now => exact cancel_job_inv s jid now H
  | cycle now rolls => exact schedule_cycle_inv h rolls s now H

theorem runOps_inv (h : String → Int) (ops : List Op)
    (hv : ∀ op ∈ ops, OpValid op) : Inv (runOps h ops) := by
  suffices hgen : ∀ (l : List Op) (s : JobScheduler), Inv s →
      (∀ op ∈ l, OpValid op) → Inv (l.foldl (applyOp h) s) from
    hgen ops initScheduler init_inv hv
  intro l
  induction l with
  | nil => intro s H _; exact H
  | cons op rest ih =>
    intro s H hvl
    rw [List.foldl_cons]
    exact ih (applyOp h s op)
      (applyOp_inv h s op H (hvl op (List.mem_cons_self _ _)))
      (fun o ho => hvl o (List.mem_cons_of_mem _ ho))

/-- Claim C6 (amended): after every sequence of public operations
(submissions with pydantic-valid resources, cancellations) and scheduling
cycles from the freshly constructed scheduler, every partition satisfies
`0 ≤ allocated_X ≤ total_X` — exactly for the integer dimensions
cpus and gpus (Python `int` counters, identical to the model's), and in the
exact-rational idealization of the float counter for memory_gb.  The float
program itself can violate the memory lower bound by rounding drift (see
`c6_float_memory_counter_goes_negative`). -/
theorem c6_alloc_counters_within_bounds (h : String → Int) (ops : List Op)
    (hv : ∀ op ∈ ops, OpValid op) :
    ∀ p ∈ (runOps h ops).partitions,
      (0 ≤ p.allocated_cpus ∧ p.allocated_cpus ≤ p.total_cpus) ∧
      (0 ≤ p.allocated_gpus ∧ p.allocated_gpus ≤ p.total_gpus) ∧
      (0 ≤ p.allocated_memory_gb ∧
        p.allocated_memory_gb ≤ p.total_memory_gb) := by
  have H : Inv (runOps h ops) := runOps_inv h ops hv
  intro p hp
  refine ⟨⟨?_, H.le_total_cpus p hp⟩, ⟨?_, H.le_total_gpus p hp⟩,
    ⟨?_, H.le_total_mem p hp⟩⟩
  · rw [H.alloc_cpus p hp]
    exact loadOn_nonneg _ _ _ (fun j hj => (H.res_nonneg j hj).1)
  · rw [H.alloc_gpus p hp]
    exact loadOn_nonneg _ _ _ (fun j hj => (H.res_nonneg j hj).2.1)
  · rw [H.alloc_mem p hp]
    exact loadOn_nonneg _ _ _ (fun j hj => (H.res_nonneg j hj).2.2)

/-- Witness for C6: run submit + cancel + one scheduling cycle from the
fresh scheduler; every partition's allocation counters stay within bounds. -/
theorem c6_alloc_counters_within_bounds_witness :
    (runOps (fun _ => 0) demoOps).partitions.Forall (fun p =>
      (0 ≤ p.allocated_cpus ∧ p.allocated_cpus ≤ p.total_cpus) ∧
      (0 ≤ p.allocated_gpus ∧ p.allocated_gpus ≤ p.total_gpus) ∧
      (0 ≤ p.allocated_memory_gb ∧
        p.allocated_memory_gb ≤ p.total_memory_gb)) := by
  rw [List.forall_iff_forall_mem]
  refine c6_alloc_counters_within_bounds (fun _ => 0) demoOps ?_
  intro op hop
  simp only [demoOps, List.mem_cons, List.not_mem_nil, or_false] at hop
  rcases hop with rfl | rfl | rfl
  · show ValidResources c1Res
    unfold ValidResources c1Res
    norm_num
  · trivial
  · trivial

/-- Claim C6 (counterexample): the claim asserts `0 ≤ allocated_memory_gb`
after every operation, but the source accumulates that counter with Python
float `+=`/`-=`.  Submit two pydantic-valid jobs of `2048 + 2 ^ (-41)` GB
and `2048.5` GB to `gpu`: both pass the 4096 GB pydantic cap and the
idle-memory admission guard (8192 GB total; 6144 GB idle remain after the
first), so one cycle admits both; cancelling both then drives the float
counter to `(2048 + 2 ^ (-41)) + 2048.5 - 2048.5 - (2048 + 2 ^ (-41)) =
-2 ^ (-41)` GB (about `-4.55e-13`), strictly below zero.  Every rounding
step of the program's own update sequence is evaluated in the binary64
model. -/
theorem c6_float_memory_counter_goes_negative :
    (f64le f64_tenth f64_memA = true ∧
      f64le f64_memA (f64OfNat 4096) = true)
  ∧ (f64le f64_tenth f64_memB = true ∧
      f64le f64_memB (f64OfNat 4096) = true)
  ∧ f64le f64_memA (f64sub (f64OfNat 8192) f64zero) = true
  ∧ f64le f64_memB
      (f64sub (f64OfNat 8192) (acquireMemF f64zero f64_memA)) = true
  ∧ releaseMemF (releaseMemF (acquireMemF (acquireMemF f64zero f64_memA)
      f64_memB) f64_memB) f64_memA = ⟨-1, -41⟩
  ∧ f64le ⟨-1, -41⟩ f64zero = true
  ∧ (⟨-1, -41⟩ : F64) ≠ f64zero := by
  decide

end Pulse
